import Mathlib

/-
Verification of the asynchronous analytical-report job pipeline of the
valohub repository: the Redis-backed job store (`services/analytical_jobs.py`),
the background worker (`jobs/analytical_report_job.py`), the retrying
spreadsheet writer and report generator (`analytical_rep.py`), and the
cancellation endpoint (`app.py`).  Python data is embedded shallowly:
dictionaries become association lists, Redis lists become Lean lists,
exceptions become `Except`, wall-clock timestamps become abstract counters.
-/

namespace ValoHub

/-! ## Python values

Job metadata fields and event payloads are loosely typed Python values.
`PyVal` models the JSON-representable fragment actually stored by the job
store: `None`, `int`, `str`, `bool`, lists and string-keyed dicts.  The
mutually inductive presentation (instead of nested `List PyVal`) keeps
structural recursion and induction straightforward. -/

mutual

inductive PyVal where
  | none : PyVal
  | int (n : Int) : PyVal
  | str (s : String) : PyVal
  | bool (b : Bool) : PyVal
  | list (xs : PyList) : PyVal
  | dict (kvs : PyDict) : PyVal

inductive PyList where
  | nil : PyList
  | cons (head : PyVal) (tail : PyList) : PyList

inductive PyDict where
  | nil : PyDict
  | cons (key : String) (value : PyVal) (tail : PyDict) : PyDict

end

deriving instance DecidableEq for PyVal, PyList, PyDict

deriving instance DecidableEq for Except

/-- Build a `PyDict` from an association list of fields. -/
def PyDict.ofList : List (String × PyVal) → PyDict
  | [] => .nil
  | (k, v) :: rest => .cons k v (PyDict.ofList rest)

/-- Look a key up in a `PyDict` (first binding wins, like a Python dict
with unique keys). -/
def PyDict.lookup : PyDict → String → Option PyVal
  | .nil, _ => Option.none
  | .cons k v rest, key => if k == key then some v else PyDict.lookup rest key

/-! ## Decimal rendering of integers

Model of Python `str()` on integers (also the form `json.dumps` prints
them in).  The fuel argument of `natDigitsAux` bounds the number of digits;
`n + 1` is always enough because `n / 10 < n` for `n ≥ 10`. -/

def natDigitChar (d : Nat) : Char := Char.ofNat (48 + d)

def natDigitsAux : Nat → Nat → List Char
  | 0, _ => []
  | fuel + 1, n =>
    if n < 10 then [natDigitChar n]
    else natDigitsAux fuel (n / 10) ++ [natDigitChar (n % 10)]

def pyNatStr (n : Nat) : String := String.mk (natDigitsAux (n + 1) n)

/-- Model of Python `str()` on an `int`. -/
def pyIntStr (n : Int) : String :=
  if n < 0 then "-" ++ pyNatStr n.natAbs else pyNatStr n.natAbs

/-! ## JSON serialization

Model of Python `json.dumps(..., ensure_ascii=True)` with its default
separators `", "` and `": "`, restricted to the `PyVal` fragment.  String
escaping covers the common escapes `\" \\ \n \t \r`; other characters are
emitted literally (the `\uXXXX` escaping of non-ASCII text is not
modelled). -/

def escapeChar (c : Char) : String :=
  if c = '"' then "\\\""
  else if c = '\\' then "\\\\"
  else if c = '\n' then "\\n"
  else if c = '\t' then "\\t"
  else if c = '\r' then "\\r"
  else String.singleton c

def escapeChars : List Char → List Char
  | [] => []
  | c :: cs => (escapeChar c).data ++ escapeChars cs

def escapeString (s : String) : String := String.mk (escapeChars s.data)

def quoteString (s : String) : String := "\"" ++ escapeString s ++ "\""

def lbraceStr : String := "\x7b"

def rbraceStr : String := "\x7d"

mutual

def jsonDumps : PyVal → String
  | .none => "null"
  | .int n => pyIntStr n
  | .str s => quoteString s
  | .bool b => if b then "true" else "false"
  | .list xs => "[" ++ dumpsElems xs ++ "]"
  | .dict kvs => lbraceStr ++ dumpsPairs kvs ++ rbraceStr

def dumpsElems : PyList → String
  | .nil => ""
  | .cons v .nil => jsonDumps v
  | .cons v (.cons w rest) => jsonDumps v ++ ", " ++ dumpsElems (.cons w rest)

def dumpsPairs : PyDict → String
  | .nil => ""
  | .cons k v .nil => quoteString k ++ ": " ++ jsonDumps v
  | .cons k v (.cons k2 v2 rest) =>
    quoteString k ++ ": " ++ jsonDumps v ++ ", " ++ dumpsPairs (.cons k2 v2 rest)

end

/-! ## JSON parsing

Model of Python `json.loads` on the same fragment.  The parser is a
fuel-bounded recursive-descent parser over the character list; `jsonLoads`
supplies fuel `s.length + 1`, which is always sufficient (each unit of fuel
is spent only after consuming at least one input character). -/

def lbraceChar : Char := Char.ofNat 123

def rbraceChar : Char := Char.ofNat 125

def isWsChar (c : Char) : Bool := c = ' ' || c = '\n' || c = '\t' || c = '\r'

/-- A decimal digit (`'0'`–`'9'`). -/
def isDigitChar (c : Char) : Bool := 48 ≤ c.toNat && c.toNat ≤ 57

def skipWs : List Char → List Char
  | [] => []
  | c :: cs => if isWsChar c then skipWs cs else c :: cs

/-- Consume a maximal prefix of decimal digits. -/
def takeDigits : List Char → List Char × List Char
  | [] => ([], [])
  | c :: cs =>
    if isDigitChar c then
      let p := takeDigits cs
      (c :: p.1, p.2)
    else ([], c :: cs)

def digitsToNat (ds : List Char) : Nat :=
  ds.foldl (fun acc c => acc * 10 + (c.toNat - 48)) 0

/-- Parse the body of a JSON string literal after the opening quote,
returning the decoded characters and the remaining input. -/
def parseStringBody : List Char → Option (List Char × List Char)
  | [] => Option.none
  | c :: cs =>
    if c = '"' then some ([], cs)
    else if c = '\\' then
      match cs with
      | [] => Option.none
      | d :: cs2 =>
        let unescaped : Option Char :=
          if d = '"' then some '"'
          else if d = '\\' then some '\\'
          else if d = 'n' then some '\n'
          else if d = 't' then some '\t'
          else if d = 'r' then some '\r'
          else Option.none
        match unescaped with
        | some e =>
          match parseStringBody cs2 with
          | some (body, rest) => some (e :: body, rest)
          | Option.none => Option.none
        | Option.none => Option.none
    else
      match parseStringBody cs with
      | some (body, rest) => some (c :: body, rest)
      | Option.none => Option.none

/-- Check that a literal keyword is a prefix of the input and return the
remaining characters. -/
def expectChars : List Char → List Char → Option (List Char)
  | [], rest => some rest
  | k :: ks, c :: cs => if c = k then expectChars ks cs else Option.none
  | _ :: _, [] => Option.none

mutual

def parseValue : Nat → List Char → Option (PyVal × List Char)
  | 0, _ => Option.none
  | fuel + 1, cs =>
    match skipWs cs with
    | [] => Option.none
    | c :: rest =>
      if c = 'n' then
        match expectChars ['u', 'l', 'l'] rest with
        | some r => some (.none, r)
        | Option.none => Option.none
      else if c = 't' then
        match expectChars ['r', 'u', 'e'] rest with
        | some r => some (.bool true, r)
        | Option.none => Option.none
      else if c = 'f' then
        match expectChars ['a', 'l', 's', 'e'] rest with
        | some r => some (.bool false, r)
        | Option.none => Option.none
      else if c = '"' then
        match parseStringBody rest with
        | some (body, r) => some (.str (String.mk body), r)
        | Option.none => Option.none
      else if c = '-' then
        match takeDigits rest with
        | ([], _) => Option.none
        | (ds, r) => some (.int (-(Int.ofNat (digitsToNat ds))), r)
      else if isDigitChar c then
        let p := takeDigits (c :: rest)
        some (.int (Int.ofNat (digitsToNat p.1)), p.2)
      else if c = '[' then
        match skipWs rest with
        | d :: r2 =>
          if d = ']' then some (.list .nil, r2)
          else
            match parseElems fuel rest with
            | some (vs, r) => some (.list vs, r)
            | Option.none => Option.none
        | [] => Option.none
      else if c = lbraceChar then
        match skipWs rest with
        | d :: r2 =>
          if d = rbraceChar then some (.dict .nil, r2)
          else
            match parsePairs fuel rest with
            | some (ps, r) => some (.dict ps, r)
            | Option.none => Option.none
        | [] => Option.none
      else Option.none

def parseElems : Nat → List Char → Option (PyList × List Char)
  | 0, _ => Option.none
  | fuel + 1, cs =>
    match parseValue fuel cs with
    | Option.none => Option.none
    | some (v, rest) =>
      match skipWs rest with
      | d :: r =>
        if d = ',' then
          match parseElems fuel r with
          | some (vs, rest2) => some (.cons v vs, rest2)
          | Option.none => Option.none
        else if d = ']' then some (.cons v .nil, r)
        else Option.none
      | [] => Option.none

def parsePairs : Nat → List Char → Option (PyDict × List Char)
  | 0, _ => Option.none
  | fuel + 1, cs =>
    match skipWs cs with
    | c :: rest =>
      if c = '"' then
        match parseStringBody rest with
        | some (key, r1) =>
          match skipWs r1 with
          | d :: r2 =>
            if d = ':' then
              match parseValue fuel r2 with
              | some (v, r3) =>
                match skipWs r3 with
                | e :: r4 =>
                  if e = ',' then
                    match parsePairs fuel r4 with
                    | some (ps, rest2) => some (.cons (String.mk key) v ps, rest2)
                    | Option.none => Option.none
                  else if e = rbraceChar then some (.cons (String.mk key) v .nil, r4)
                  else Option.none
                | [] => Option.none
              | Option.none => Option.none
            else Option.none
          | [] => Option.none
        | Option.none => Option.none
      else Option.none
    | [] => Option.none

end

/-- The remainders a recursively parsed value may be followed by inside a
document produced by `jsonDumps`: nothing, or a separator/closer. -/
def restSafe : List Char → Prop
  | [] => True
  | c :: _ => c = ',' ∨ c = ']' ∨ c = rbraceChar

/-- Model of Python `json.loads`: parse a complete value; trailing
whitespace is allowed, any other trailing garbage is an error. -/
def jsonLoads (s : String) : Option PyVal :=
  match parseValue (s.length + 1) s.data with
  | some (v, rest) => if (skipWs rest).isEmpty then some v else Option.none
  | Option.none => Option.none

/-! ## Metadata field encoding

Model of `AnalyticalJobStore._encode_meta` and
`AnalyticalJobStore._decode_meta_value` (`services/analytical_jobs.py`):
each metadata field value is flattened to a string on write (`None` to the
empty string, dicts/lists to JSON, anything else through `str()`), and on
read the empty string becomes `None` and a string parsing as a JSON
dict/list becomes the parsed structure — every other string is returned
as-is. -/

def encodeMetaValue : PyVal → String
  | .none => ""
  | .list xs => jsonDumps (.list xs)
  | .dict kvs => jsonDumps (.dict kvs)
  | .int n => pyIntStr n
  | .str s => s
  | .bool b => if b then "True" else "False"

def encodeMeta (data : List (String × PyVal)) : List (String × String) :=
  data.map (fun p => (p.1, encodeMetaValue p.2))

/-- Is a parsed value a dict or a list (the only shapes
`_decode_meta_value` keeps)? -/
def PyVal.isContainer : PyVal → Bool
  | .list _ => true
  | .dict _ => true
  | _ => false

def decodeMetaValue (value : String) : PyVal :=
  if value = "" then .none
  else
    match jsonLoads value with
    | some parsed => if parsed.isContainer then parsed else .str value
    | Option.none => .str value

/-- Model of Python `str.strip()` (ASCII whitespace). -/
def pyStrip (s : String) : String :=
  String.mk (((s.data.dropWhile isWsChar).reverse.dropWhile isWsChar).reverse)

def pyLowerChar (c : Char) : Char :=
  if 'A' ≤ c ∧ c ≤ 'Z' then Char.ofNat (c.toNat + 32) else c

/-- Model of Python `str.lower()` (ASCII letters). -/
def pyLower (s : String) : String := String.mk (s.data.map pyLowerChar)

/-! ## Events and the per-job Redis state

Model of the per-job Redis keys managed by `AnalyticalJobStore`
(`services/analytical_jobs.py`): the durable event log (a Redis list of
serialized events), the metadata hash, the blocking input queue and the
pub/sub broadcast channel (modelled as the list of messages published so
far).  The wall clock (`utc_now_iso`) is modelled as a `Nat` counter; its
value is irrelevant to every verified property, so worker-side events are
stamped `0`. -/

structure Event where
  type : String
  origin : String
  payload : PyVal
  timestamp : Nat
deriving DecidableEq

def optStr : Option String → PyVal
  | some s => .str s
  | Option.none => .none

def optInt : Option Int → PyVal
  | some n => .int n
  | Option.none => .none

/-- Serialization of an event as in `append_event`:
`json.dumps({"type": ..., "origin": ..., "payload": ..., "timestamp": ...})`
(the ISO timestamp string is modelled as the decimal rendering of the
counter). -/
def serializeEvent (e : Event) : String :=
  jsonDumps (.dict (PyDict.ofList
    [("type", .str e.type), ("origin", .str e.origin),
     ("payload", e.payload), ("timestamp", .str (pyNatStr e.timestamp))]))

structure JobState where
  log : List String
  meta : List (String × String)
  input : List String
  channel : List String
deriving DecidableEq

def emptyJobState : JobState := ⟨[], [], [], []⟩

/-- Redis `HSET` of a single field: last write wins per field (replace the
existing binding, or append a fresh one). -/
def hsetField : List (String × String) → String → String → List (String × String)
  | [], k, v => [(k, v)]
  | p :: t, k, v => if p.1 == k then (k, v) :: t else p :: hsetField t k v

def hsetMany (h : List (String × String)) (fields : List (String × String)) :
    List (String × String) :=
  fields.foldl (fun acc p => hsetField acc p.1 p.2) h

/-- Redis `LTRIM key -limit -1`: keep the `limit` newest entries.  With
`limit = 0` the Python expression `-self.log_limit` is `0`, so the whole
list is kept. -/
def ltrimKeepLast (limit : Nat) (l : List String) : List String :=
  if limit = 0 then l else l.drop (l.length - limit)

def logLengthSoftLimit : Nat := 500

/-- Model of `AnalyticalJobStore.append_event`: serialize, `RPUSH` onto the
log, `LTRIM` the log to the soft limit, and `PUBLISH` the same serialized
message on the job's channel. -/
def appendEvent (limit : Nat) (st : JobState) (e : Event) : JobState :=
  let raw := serializeEvent e
  { st with
    log := ltrimKeepLast limit (st.log ++ [raw]),
    channel := st.channel ++ [raw] }

def appendEvents (limit : Nat) (st : JobState) (evs : List Event) : JobState :=
  evs.foldl (appendEvent limit) st

/-- Model of `AnalyticalJobStore.update_status`: merge
`{"status": status, "updated_at": now, **extra}` into the meta hash and
append a matching `status` event carrying the same payload. -/
def updateStatus (limit : Nat) (st : JobState) (status : String)
    (extra : List (String × PyVal)) (ts : Nat) : JobState :=
  let payload : List (String × PyVal) :=
    [("status", .str status), ("updated_at", .str (pyNatStr ts))] ++ extra
  let st2 := { st with meta := hsetMany st.meta (encodeMeta payload) }
  appendEvent limit st2 ⟨"status", "system", .dict (PyDict.ofList payload), ts⟩

/-- Initial metadata written by `bootstrap`; `created_by` is added only when
truthy (Python `if created_by:`, so an empty string is skipped too). -/
def bootstrapMeta (jobId teamTag : String) (matchCount : Option Int)
    (shareEmail : Option String) (createdBy : Option String) (ts : Nat) :
    List (String × PyVal) :=
  [("job_id", .str jobId), ("status", .str "queued"), ("team_tag", .str teamTag),
   ("match_count", optInt matchCount), ("share_email", optStr shareEmail),
   ("created_at", .str (pyNatStr ts)), ("updated_at", .str (pyNatStr ts))] ++
  (match createdBy with
   | some u => if u = "" then [] else [("created_by", .str u)]
   | Option.none => [])

/-- Model of `AnalyticalJobStore.bootstrap`: delete the log, input queue and
meta hash, write the initial metadata, then append a `status` event carrying
the metadata. -/
def bootstrap (limit : Nat) (st : JobState) (jobId teamTag : String)
    (matchCount : Option Int) (shareEmail : Option String)
    (createdBy : Option String) (ts : Nat) : JobState :=
  let meta := bootstrapMeta jobId teamTag matchCount shareEmail createdBy ts
  let st2 : JobState :=
    { log := [], input := [], meta := hsetMany [] (encodeMeta meta),
      channel := st.channel }
  appendEvent limit st2
    ⟨"status", "system",
     .dict (PyDict.ofList [("status", .str "queued"), ("meta", .dict (PyDict.ofList meta))]), ts⟩

/-- Model of `AnalyticalJobStore.merge_meta`. -/
def mergeMeta (st : JobState) (data : List (String × PyVal)) : JobState :=
  { st with meta := hsetMany st.meta (encodeMeta data) }

/-- Model of `AnalyticalJobStore.get_meta`: decode every stored field. -/
def getMeta (st : JobState) : List (String × PyVal) :=
  st.meta.map (fun p => (p.1, decodeMetaValue p.2))

def metaLookup (st : JobState) (key : String) : Option PyVal :=
  (getMeta st).lookup key

/-! ## The Resilient API Writer

Model of `_execute_with_retry` (`analytical_rep.py`): an operation is
retried only on an `APIError` whose extracted status is 429 and only while
`attempt < maxRetries`, sleeping `min(60, base * 2 ** attempt)` before each
retry; any other `APIError` (and a 429 once retries are exhausted) is
wrapped into the domain error `f"{description} failed: {exc}"`, and an
exception that is not an `APIError` propagates unwrapped (the `except`
clause does not catch it).  The operation is modelled as a function from
the zero-based attempt index to an outcome; the pre-call throttle wait
(`_throttle_writes`) affects timing only, never the attempt count or the
backoff schedule, and is not modelled.  `RetryOutcome` records the result,
how many times the operation was invoked, and the backoff sleeps
performed. -/

inductive ApiErr where
  | apiError (status : Option Int) (msg : String)
  | other (msg : String)
deriving DecidableEq

inductive WriterErr where
  | domain (msg : String)
  | raw (e : ApiErr)
deriving DecidableEq

structure RetryOutcome (α : Type) where
  result : Except WriterErr α
  attempts : Nat
  sleeps : List Rat

def retryLoop (maxRetries : Nat) (base cap : Rat) (op : Nat → Except ApiErr α)
    (description : String) (attempt : Nat) : RetryOutcome α :=
  match op attempt with
  | .ok v => ⟨.ok v, 1, []⟩
  | .error e =>
    match e with
    | .apiError status msg =>
      if h : status = some 429 ∧ attempt < maxRetries then
        let backoff := min cap (base * 2 ^ attempt)
        let rest := retryLoop maxRetries base cap op description (attempt + 1)
        ⟨rest.result, rest.attempts + 1, backoff :: rest.sleeps⟩
      else ⟨.error (.domain (description ++ " failed: " ++ msg)), 1, []⟩
    | .other _ => ⟨.error (.raw e), 1, []⟩
termination_by maxRetries - attempt
decreasing_by
  have := h.2
  omega

def executeWithRetry (maxRetries : Nat) (base cap : Rat) (op : Nat → Except ApiErr α)
    (description : String) : RetryOutcome α :=
  retryLoop maxRetries base cap op description 0

/-- Default configuration: `_WRITE_MAX_RETRIES = 6`,
`_WRITE_BACKOFF_SECONDS = 5.0`, backoff ceiling 60. -/
def writeMaxRetries : Nat := 6

def writeBackoffSeconds : Rat := 5

def writeBackoffCap : Rat := 60

/-- A simulated write operation that fails with a rate-limit `APIError`
on its first `k` invocations and then succeeds with `v`. -/
def rateLimitedOp (k : Nat) (v : α) (msg : String) : Nat → Except ApiErr α :=
  fun i => if i < k then .error (.apiError (some 429) msg) else .ok v

def RetryOutcome.isDomainError (r : RetryOutcome α) : Bool :=
  match r.result with
  | .error (.domain _) => true
  | _ => false

/-! ## The Worker's prompt rendezvous

Model of `prompt_user` in `jobs/analytical_report_job.py`.  Each call
appends a `prompt` event (payload `{"id": ..., title/message/hint/options/
default when present}`) and then loops over `pop_user_input(timeout=5)`.
The sequence of poll results observed by the loop is modelled as a list:
`Option.none` is a poll timeout (the loop just `continue`s — it consults
nothing else, in particular not the job's status), `some msg` is a queued
user message.  An exhausted poll list means the observation window closed
while the Worker was still blocked polling. -/

structure PromptSpec where
  id : Option String := Option.none
  title : Option String := Option.none
  message : Option String := Option.none
  hint : Option String := Option.none
  options : Option PyVal := Option.none
  default : Option String := Option.none

/-- The prompt id used by `prompt_user`: `spec.get("id") or uuid4().hex`
(an absent or empty id falls back to the fresh uuid). -/
def resolvedPromptId (freshId : String) (spec : PromptSpec) : String :=
  match spec.id with
  | some s => if s = "" then freshId else s
  | Option.none => freshId

def optField (key : String) : Option PyVal → List (String × PyVal)
  | some v => [(key, v)]
  | Option.none => []

def promptPayload (pid : String) (spec : PromptSpec) : PyVal :=
  .dict (PyDict.ofList ([("id", .str pid)] ++
    optField "title" (spec.title.map .str) ++
    optField "message" (spec.message.map .str) ++
    optField "hint" (spec.hint.map .str) ++
    optField "options" spec.options ++
    optField "default" (spec.default.map .str)))

def progressEvent (msg : String) : Event :=
  ⟨"progress", "system", .dict (PyDict.ofList [("message", .str msg)]), 0⟩

def promptEvent (pid : String) (spec : PromptSpec) : Event :=
  ⟨"prompt", "system", promptPayload pid spec, 0⟩

def promptResolvedEvent (pid response : String) : Event :=
  ⟨"prompt_resolved", "system",
   .dict (PyDict.ofList [("id", .str pid), ("response", .str response)]), 0⟩

inductive PromptOutcome where
  | resolved (response : String)
  | waiting
deriving DecidableEq

/-- The `while True` poll loop of `prompt_user`, with the events it appends.
On a timeout it continues unconditionally; an empty message with a declared
default resolves to the default; an empty message without a default emits a
guidance progress event and keeps waiting; otherwise the stripped message
resolves the prompt and a `prompt_resolved` event is appended. -/
def promptLoop (pid : String) (dflt : Option String) :
    List (Option String) → PromptOutcome × List Event
  | [] => (.waiting, [])
  | Option.none :: polls => promptLoop pid dflt polls
  | some msg :: polls =>
    let r0 := pyStrip msg
    match dflt with
    | some d =>
      let r := if r0 = "" then d else r0
      (.resolved r, [promptResolvedEvent pid r])
    | Option.none =>
      if r0 = "" then
        let next := promptLoop pid dflt polls
        (next.1, progressEvent "Please provide a response to continue." :: next.2)
      else (.resolved r0, [promptResolvedEvent pid r0])

/-- One full `prompt_user` call: the `prompt` event followed by the loop's
events, together with the outcome. -/
def promptUser (freshId : String) (spec : PromptSpec) (polls : List (Option String)) :
    PromptOutcome × List Event :=
  let pid := resolvedPromptId freshId spec
  let r := promptLoop pid spec.default polls
  (r.1, promptEvent pid spec :: r.2)

/-! ## Worker traces

A job's log is produced by a sequence of worker actions: `prompt_user`
calls (each with its fresh uuid, spec and observed poll results) and other
`append_event` calls (progress, status, completed, error, ... — every event
type except `prompt`/`prompt_resolved`, which only `prompt_user` emits). -/

inductive WorkerAction where
  | promptCall (freshId : String) (spec : PromptSpec) (polls : List (Option String))
  | plainEvent (e : Event)

def actionEvents : WorkerAction → List Event
  | .promptCall fid spec polls => (promptUser fid spec polls).2
  | .plainEvent e => [e]

def workerLog (acts : List WorkerAction) : List Event :=
  (acts.map actionEvents).flatten

def actionPromptIds : WorkerAction → List String
  | .promptCall fid spec _ => [resolvedPromptId fid spec]
  | .plainEvent _ => []

def promptIds (acts : List WorkerAction) : List String :=
  (acts.map actionPromptIds).flatten

/-- A worker action is clean when any directly appended event is not a
`prompt`/`prompt_resolved` event (those are only ever emitted by
`prompt_user`). -/
def cleanAction : WorkerAction → Bool
  | .promptCall _ _ _ => true
  | .plainEvent e => e.type != "prompt" && e.type != "prompt_resolved"

def eventIdIs (e : Event) (pid : String) : Bool :=
  match e.payload with
  | .dict kvs =>
    match kvs.lookup "id" with
    | some (.str s) => s == pid
    | _ => false
  | _ => false

def isPromptEvt (pid : String) (e : Event) : Bool :=
  e.type == "prompt" && eventIdIs e pid

def isResolvedEvt (pid : String) (e : Event) : Bool :=
  e.type == "prompt_resolved" && eventIdIs e pid

/-! ## The Worker's top-level run

Model of `run_analytical_report_job` (`jobs/analytical_report_job.py`).
The report-generation workflow (`generate_analytical_report`) is abstracted
as its outcome: a result payload or a raised exception
(`AnalyticalReportError` or an unexpected exception with its formatted
traceback).  The returned `Except` is the function's own outcome: `.error`
means the exception left the function (the handlers end in `raise`). -/

inductive GenError where
  | reportError (msg : String)
  | unexpected (msg : String) (tb : String)
deriving DecidableEq

def genErrorMessage : GenError → String
  | .reportError m => m
  | .unexpected m _ => "Unexpected error: " ++ m

/-- The `error` event the worker appends in its handlers: just the message
for an `AnalyticalReportError`, message plus formatted traceback for an
unexpected exception. -/
def workerErrorEvent : GenError → Event
  | .reportError m => ⟨"error", "system", .dict (PyDict.ofList [("message", .str m)]), 0⟩
  | .unexpected m tb =>
    ⟨"error", "system",
     .dict (PyDict.ofList
       [("message", .str ("Unexpected error: " ++ m)), ("traceback", .str tb)]), 0⟩

def runAnalyticalReportJob (limit : Nat) (st : JobState) (jobId teamTag : String)
    (matchCount : Option Int) (gen : Except GenError PyVal) :
    JobState × Except GenError PyVal :=
  let st1 := updateStatus limit st "started"
    [("team_tag", .str teamTag), ("match_count", optInt matchCount)] 0
  let st2 := appendEvent limit st1
    (progressEvent ("Job " ++ jobId ++ " started for team " ++ teamTag ++ "."))
  match gen with
  | .ok result =>
    let st3 := mergeMeta st2 [("result", result), ("completed_at", .str (pyNatStr 0))]
    let st4 := appendEvent limit st3
      ⟨"completed", "system",
       .dict (PyDict.ofList
         [("message", .str "Analytical report generated successfully."), ("result", result)]), 0⟩
    let st5 := updateStatus limit st4 "finished" [] 0
    (st5, .ok result)
  | .error e =>
    let st3 := appendEvent limit st2 (workerErrorEvent e)
    let st4 := updateStatus limit st3 "failed" [("error", .str (genErrorMessage e))] 0
    (st4, .error e)

/-! ## Interactive match selection

Model of `_pick_matches` (`analytical_rep.py`) on the branch where the
caller supplied a `match_count`.  A match is modelled by its id (the source
carries dicts and projects `m["matchId"]`); the list is ordered most recent
first.  Progress messages are modelled as tagged events, one constructor
per `_notify` call site:
`clampNotice a` is "Only \x7ba\x7d matches are available. Using the \x7ba\x7d most
recent matches.", `positiveIntRequired` is "Please enter a positive
integer.", `mostRecent s` is "Most recent match: \x7bs\x7d", `oldestInSelection s`
is "Oldest in selection: \x7bs\x7d", `respondYesNo` is "Please respond with yes
or no.".  The prompt handler is abstracted as the stream of its answers;
`summarize` abstracts `_summarize_match(get_match_by_match_id(...))`. -/

inductive PickEvent where
  | clampNotice (available : Nat)
  | positiveIntRequired
  | mostRecent (summary : String)
  | oldestInSelection (summary : String)
  | respondYesNo
deriving DecidableEq

inductive PickOutcome where
  | picked (ids : List String) (events : List PickEvent)
  | failed (msg : String) (events : List PickEvent)
  | outOfResponses (events : List PickEvent)
deriving DecidableEq

def prependPickEvents (evs : List PickEvent) : PickOutcome → PickOutcome
  | .picked ids evs2 => .picked ids (evs ++ evs2)
  | .failed msg evs2 => .failed msg (evs ++ evs2)
  | .outOfResponses evs2 => .outOfResponses (evs ++ evs2)

def decDigitsToNat (cs : List Char) : Option Nat :=
  if !cs.isEmpty && cs.all (fun c => isDigitChar c) then some (digitsToNat cs)
  else Option.none

/-- Model of Python `int(s)` on user input: optional sign, decimal digits. -/
def pyParseInt (s : String) : Option Int :=
  match (pyStrip s).data with
  | [] => Option.none
  | c :: rest =>
    if c = '-' then (decDigitsToNat rest).map (fun n => -(Int.ofNat n))
    else if c = '+' then (decDigitsToNat rest).map Int.ofNat
    else (decDigitsToNat (c :: rest)).map Int.ofNat

/-- The interactive `request_count` loop: consume prompt answers until a
usable count is obtained.  An empty answer with a truthy current count
returns `max(1, min(current, available))`; an unparsable or non-positive
answer emits the guidance message and re-prompts; an answer above
`available` emits the clamp notice and returns `available`. -/
def requestCountI (available : Nat) (current : Option Nat) :
    List String → Option (Nat × List String × List PickEvent)
  | [] => Option.none
  | r :: rest =>
    let resp := pyStrip r
    let currentTruthy : Bool :=
      match current with
      | some c => c != 0
      | Option.none => false
    if resp.isEmpty && currentTruthy then
      some (max 1 (min (current.getD 1) available), rest, [])
    else
      match pyParseInt resp with
      | some v =>
        if v ≤ 0 then
          (requestCountI available current rest).map
            (fun out => (out.1, out.2.1, PickEvent.positiveIntRequired :: out.2.2))
        else if v > (available : Int) then some (available, rest, [.clampNotice available])
        else some (v.toNat, rest, [])
      | Option.none =>
        (requestCountI available current rest).map
          (fun out => (out.1, out.2.1, PickEvent.positiveIntRequired :: out.2.2))

def yesValues : List String := ["yes", "y", "proceed", "p"]

def noValues : List String := ["no", "n", "change", "c"]

/-- The per-iteration selection summary: the most recent match of the
selection and, when more than one is selected, the oldest one. -/
def selectionSummaryEvents (selected : List String) (summarize : String → String) :
    List PickEvent :=
  [PickEvent.mostRecent (summarize (selected.headD ""))] ++
    (if selected.length > 1 then
      [PickEvent.oldestInSelection (summarize (selected.getLastD ""))]
     else [])

/-- The confirmation loop of `_pick_matches`: take the `count` most recent
matches, emit the selection summary, and (when a prompt handler is
attached) ask for confirmation; `yes` accepts, `no` re-enters the count
negotiation, anything else emits guidance and re-asks.  The fuel bounds the
modelled observation window of this `while True` loop. -/
def confirmLoop (ms : List String) (available : Nat)
    (summarize : String → String) (interactive : Bool) :
    Nat → Nat → List String → PickOutcome
  | 0, _, _ => .outOfResponses []
  | fuel + 1, count, responses =>
    let selected := ms.take count
    if selected.isEmpty then
      .failed "No matches could be selected with the requested count." []
    else
      let evs0 := selectionSummaryEvents selected summarize
      if !interactive then .picked selected evs0
      else
        match responses with
        | [] => .outOfResponses evs0
        | r :: rest =>
          let resp0 := pyLower (pyStrip r)
          let resp := if resp0 = "" then "yes" else resp0
          if yesValues.contains resp then .picked selected evs0
          else if noValues.contains resp then
            match requestCountI available (some count) rest with
            | some (c2, rest2, evs1) =>
              prependPickEvents (evs0 ++ evs1)
                (confirmLoop ms available summarize interactive fuel c2 rest2)
            | Option.none => .outOfResponses evs0
          else
            prependPickEvents (evs0 ++ [.respondYesNo])
              (confirmLoop ms available summarize interactive fuel count rest)

/-- `_pick_matches` on the caller-supplied-count branch: a non-positive
count raises, a count above the available matches emits the clamp notice
and is clamped, and the (possibly clamped) count enters the confirmation
loop. -/
def pickMatchesGiven (ms : List String) (m : Int) (summarize : String → String)
    (interactive : Bool) (responses : List String) (fuel : Nat) : PickOutcome :=
  let available := ms.length
  if available = 0 then .failed "No matches available for selection." []
  else if m ≤ 0 then .failed "Number of matches must be positive." []
  else
    let count := if (available : Int) < m then available else m.toNat
    let evs : List PickEvent :=
      if (available : Int) < m then [.clampNotice available] else []
    prependPickEvents evs
      (confirmLoop ms available summarize interactive fuel count responses)

/-! ## Report finalization

Model of the tail of `generate_analytical_report` (`analytical_rep.py`,
after the report payload is built): the sharing, public-view, tab-gid and
publish sub-steps and the final URL assembly.  Each sub-step's interaction
with the external service is abstracted as its outcome; `FinErr.domain` is
an `AnalyticalReportError` (what the `except` clauses catch),
`FinErr.raw` any other exception (not caught here).  `_notify` messages are
tagged events, one constructor per call site: `ensuringViewable` is
"Ensuring the spreadsheet is viewable by link…", `publicViewWarning m` is
"Unable to grant public viewer access automatically: \x7bm\x7d", `gidWarning m`
is "Unable to resolve sheet tab for embedding: \x7bm\x7d", `publishingNote` is
"Publishing spreadsheet for embedding…", `publishWarning m` is "Unable to
publish spreadsheet automatically: \x7bm\x7d", `readyNote` is "Spreadsheet ready
for embedding.", `createdNote u` is "Spreadsheet created! URL: \x7bu\x7d". -/

inductive FinErr where
  | domain (msg : String)
  | raw (msg : String)
deriving DecidableEq

inductive FinEvent where
  | ensuringViewable
  | publicViewWarning (msg : String)
  | gidWarning (msg : String)
  | publishingNote
  | publishWarning (msg : String)
  | readyNote
  | createdNote (url : String)
deriving DecidableEq

structure ReportUrls where
  spreadsheetUrl : String
  spreadsheetViewUrl : String
  spreadsheetCsvUrl : String
  spreadsheetEditUrl : String
deriving DecidableEq

/-- A `try: ... except AnalyticalReportError:` block around a sub-step:
a domain error is demoted to a warning event and a fallback value, any
other exception propagates. -/
def catchDomain (outcome : Except FinErr α) (fallback : α) (warn : String → FinEvent) :
    Except FinErr (α × List FinEvent) :=
  match outcome with
  | .ok v => .ok (v, [])
  | .error (.domain m) => .ok (fallback, [warn m])
  | .error (.raw m) => .error (.raw m)

/-- Fallback embed URL built when no published link was obtained. -/
def fallbackEmbedUrl (sid : String) (gid : Option Int) : String :=
  let base := "https://docs.google.com/spreadsheets/d/" ++ sid ++ "/htmlview?rm=embedded"
  match gid with
  | some g => base ++ "&gid=" ++ pyIntStr g
  | Option.none => base

def fallbackCsvUrl (sid : String) (gid : Option Int) : String :=
  let base := "https://docs.google.com/spreadsheets/d/" ++ sid ++ "/export?format=csv"
  match gid with
  | some g => base ++ "&gid=" ++ pyIntStr g
  | Option.none => base

/-- The finalization sequence of `generate_analytical_report`.  Note the
sharing sub-step (`_share_spreadsheet`, reached whenever the recipient —
`share_email or DEFAULT_SHARE_EMAIL` — is truthy) is *not* inside any
`try`, while the public-view, gid and publish sub-steps each catch
`AnalyticalReportError` and demote it to a warning.  `composeUrls`
abstracts `_compose_published_urls` (pure URL string manipulation, outside
the verified claims). -/
def finalizeReport (composeUrls : String → String → Option Int → String × String × String)
    (recipient : Option String)
    (shareOutcome : Except FinErr Unit)
    (viewOutcome : Except FinErr Unit)
    (gidOutcome : Except FinErr Int)
    (publishOutcome : Except FinErr String)
    (spreadsheetId editUrl : String) :
    Except FinErr (ReportUrls × List FinEvent) :=
  let shareStep : Except FinErr Unit :=
    match recipient with
    | some r => if r = "" then .ok () else shareOutcome
    | Option.none => .ok ()
  match shareStep with
  | .error e => .error e
  | .ok _ =>
    match catchDomain viewOutcome () FinEvent.publicViewWarning with
    | .error e => .error e
    | .ok (_, viewWarns) =>
      match catchDomain (gidOutcome.map some) Option.none FinEvent.gidWarning with
      | .error e => .error e
      | .ok (gid, gidWarns) =>
        match catchDomain publishOutcome "" FinEvent.publishWarning with
        | .error e => .error e
        | .ok (publishedLink, publishWarns) =>
          let urls : ReportUrls :=
            if publishedLink ≠ "" then
              let t := composeUrls publishedLink spreadsheetId gid
              ⟨t.1, t.2.1, t.2.2, editUrl⟩
            else
              ⟨fallbackEmbedUrl spreadsheetId gid, editUrl,
               fallbackCsvUrl spreadsheetId gid, editUrl⟩
          .ok (urls,
            [.ensuringViewable] ++ viewWarns ++ gidWarns ++
            [.publishingNote] ++ publishWarns ++
            [.readyNote, .createdNote urls.spreadsheetUrl])

/-- A simulated sub-step outcome: fail with an `AnalyticalReportError`
carrying `m`, or succeed with `okVal`. -/
def domainOr (fail : Option String) (okVal : α) : Except FinErr α :=
  match fail with
  | some m => .error (.domain m)
  | Option.none => .ok okVal

def warnList (w : String → FinEvent) : Option String → List FinEvent
  | some m => [w m]
  | Option.none => []

/-- The gid obtained by finalization: `None` when `_get_gid` failed. -/
def gidOpt (gidFail : Option String) (gidVal : Int) : Option Int :=
  match gidFail with
  | some _ => Option.none
  | Option.none => some gidVal

/-- The URLs finalization produces: composed from the published link when
publishing succeeded, the fallback URLs built from the spreadsheet id
otherwise. -/
def finalizeUrls (cu : String → String → Option Int → String × String × String)
    (pubFail : Option String) (link : String) (gidFail : Option String)
    (gidVal : Int) (sid editUrl : String) : ReportUrls :=
  match pubFail with
  | some _ =>
    ⟨fallbackEmbedUrl sid (gidOpt gidFail gidVal), editUrl,
     fallbackCsvUrl sid (gidOpt gidFail gidVal), editUrl⟩
  | Option.none =>
    ⟨(cu link sid (gidOpt gidFail gidVal)).1,
     (cu link sid (gidOpt gidFail gidVal)).2.1,
     (cu link sid (gidOpt gidFail gidVal)).2.2, editUrl⟩

/-- The progress events finalization emits when the share sub-step
succeeded and the remaining sub-steps fail (if at all) with domain
errors. -/
def finalizeEvs (viewFail gidFail pubFail : Option String) (embedUrl : String) :
    List FinEvent :=
  [.ensuringViewable] ++ warnList FinEvent.publicViewWarning viewFail ++
    warnList FinEvent.gidWarning gidFail ++ [.publishingNote] ++
    warnList FinEvent.publishWarning pubFail ++ [.readyNote, .createdNote embedUrl]

/-- The slice of the returned result payload relevant here (the remaining
fields — team tag/name, match count, report payload — do not interact with
finalization failures). -/
def reportResultVal (urls : ReportUrls) (sid : String) : PyVal :=
  .dict (PyDict.ofList
    [("spreadsheet_url", .str urls.spreadsheetUrl),
     ("spreadsheet_view_url", .str urls.spreadsheetViewUrl),
     ("spreadsheet_csv_url", .str urls.spreadsheetCsvUrl),
     ("spreadsheet_edit_url", .str urls.spreadsheetEditUrl),
     ("spreadsheet_id", .str sid)])

/-- How a finalization failure surfaces inside the Worker: an
`AnalyticalReportError` is caught by the worker's first handler, any other
exception by its generic handler (with a traceback `tb`). -/
def genErrorOfFinErr (tb : String) : FinErr → GenError
  | .domain m => .reportError m
  | .raw m => .unexpected m tb

/-- `generate_analytical_report` with stages 1–5 succeeded, abstracted down
to its finalization behaviour: the generated result payload, or the
exception that escaped finalization. -/
def generateFromFinalize
    (composeUrls : String → String → Option Int → String × String × String)
    (recipient : Option String)
    (shareOutcome viewOutcome : Except FinErr Unit)
    (gidOutcome : Except FinErr Int)
    (publishOutcome : Except FinErr String)
    (spreadsheetId editUrl tb : String) : Except GenError PyVal :=
  match finalizeReport composeUrls recipient shareOutcome viewOutcome gidOutcome
      publishOutcome spreadsheetId editUrl with
  | .ok (urls, _) => .ok (reportResultVal urls spreadsheetId)
  | .error e => .error (genErrorOfFinErr tb e)

/-! ## The cancellation endpoint

Model of `cancel_analytical_job` (`app.py`): look up the job's metadata
(404 when empty); if the lower-cased status is terminal, return it
unchanged with no side effect; otherwise request cancellation on the
store, best-effort cancel the job's RQ task (`NoSuchJobError` is ignored),
and empty the analytical queue.  `rqTaskCancelled` is `some flag` when the
RQ registry has the task (`flag` = already cancelled) and `Option.none`
when fetching raises `NoSuchJobError`; `pendingQueue` holds the other
queued-but-not-started jobs. -/

def terminalStatuses : List String := ["finished", "failed", "cancelled"]

inductive CancelResponse where
  | notFound
  | alreadyCompleted (status : String)
  | cancellationRequested
deriving DecidableEq

structure CancelSystem where
  job : JobState
  rqTaskCancelled : Option Bool
  pendingQueue : List String
deriving DecidableEq

/-- Python `(meta.get("status") or "").lower()`: a missing or `None` status
yields the empty string (a stored status is always a string in this
system). -/
def statusLowerOf (st : JobState) : String :=
  match metaLookup st "status" with
  | some (.str s) => pyLower s
  | _ => ""

/-- Modelled from the spec: `app.py` line 1392 calls
`analytical_job_store.request_cancel(job_id, cancelled_by=...)`, but no
`request_cancel` method is defined on `AnalyticalJobStore` in
`src/services/analytical_jobs.py` (the method is missing from the source
tree).  Per the spec (§4.2 `cancel`): the request "marks status
`cancelling`"; modelled as an `update_status` transition to `cancelling`
recording who requested it. -/
def cancelledByExtra : Option String → List (String × PyVal)
  | some u => [("cancelled_by", .str u)]
  | Option.none => []

def requestCancel (limit : Nat) (st : JobState) (cancelledBy : Option String) : JobState :=
  updateStatus limit st "cancelling" (cancelledByExtra cancelledBy) 0

def cancelAnalyticalJob (limit : Nat) (sys : CancelSystem) (cancelledBy : Option String) :
    CancelResponse × CancelSystem :=
  if (getMeta sys.job).isEmpty then (.notFound, sys)
  else
    let status := statusLowerOf sys.job
    if terminalStatuses.contains status then (.alreadyCompleted status, sys)
    else
      (.cancellationRequested,
       { job := requestCancel limit sys.job cancelledBy,
         rqTaskCancelled := sys.rqTaskCancelled.map (fun _ => true),
         pendingQueue := [] })

/-! ## Basic facts about the metadata hash -/

theorem hsetField_lookup_self (h : List (String × String)) (k v : String) :
    (hsetField h k v).lookup k = some v := by
  induction h with
  | nil => simp [hsetField]
  | cons p t ih =>
    simp only [hsetField]
    by_cases hk : (p.1 == k) = true
    · simp [hk, List.lookup]
    · have hk' : p.1 ≠ k := by simpa using hk
      have hk2 : (k == p.1) = false := beq_eq_false_iff_ne.mpr (Ne.symm hk')
      simp [hk, List.lookup, hk2, ih]

theorem hsetField_lookup_other (h : List (String × String)) (k v k' : String)
    (hne : k' ≠ k) : (hsetField h k v).lookup k' = h.lookup k' := by
  have hbeq : (k' == k) = false := beq_eq_false_iff_ne.mpr hne
  induction h with
  | nil => simp [hsetField, List.lookup, hbeq]
  | cons p t ih =>
    simp only [hsetField]
    by_cases hk : (p.1 == k) = true
    · have hk' : p.1 = k := by simpa using hk
      have : (k' == p.1) = false := by
        rw [hk']
        exact beq_eq_false_iff_ne.mpr hne
      simp [hk, List.lookup, hbeq, this]
    · simp [hk, List.lookup, ih]

theorem hsetMany_cons (h : List (String × String)) (k v : String)
    (rest : List (String × String)) :
    hsetMany h ((k, v) :: rest) = hsetMany (hsetField h k v) rest := rfl

theorem hsetMany_lookup_notin (h : List (String × String))
    (fields : List (String × String)) (k : String)
    (hk : ∀ p ∈ fields, p.1 ≠ k) :
    (hsetMany h fields).lookup k = h.lookup k := by
  induction fields generalizing h with
  | nil => rfl
  | cons p t ih =>
    rw [show (p :: t) = ((p.1, p.2) :: t) from rfl, hsetMany_cons]
    rw [ih _ (fun q hq => hk q (List.mem_cons_of_mem _ hq))]
    exact hsetField_lookup_other h p.1 p.2 k fun hkk =>
      hk p (List.mem_cons_self _ _) hkk.symm

theorem getMeta_lookup (st : JobState) (k : String) :
    (getMeta st).lookup k = (st.meta.lookup k).map decodeMetaValue := by
  unfold getMeta
  induction st.meta with
  | nil => rfl
  | cons p t ih =>
    simp only [List.map_cons, List.lookup]
    by_cases hk : k == p.1
    · simp [hk]
    · simp [hk, ih]

theorem appendEvent_meta (limit : Nat) (st : JobState) (e : Event) :
    (appendEvent limit st e).meta = st.meta := rfl

theorem appendEvents_meta (limit : Nat) (st : JobState) (evs : List Event) :
    (appendEvents limit st evs).meta = st.meta := by
  induction evs generalizing st with
  | nil => rfl
  | cons e t ih => exact (ih (appendEvent limit st e)).trans rfl

/-- After `update_status`, the stored (raw) status field is exactly the new
status, provided no extra field overrides it. -/
theorem updateStatus_meta_status (limit : Nat) (st : JobState) (s : String)
    (extra : List (String × PyVal)) (ts : Nat)
    (hextra : ∀ p ∈ extra, p.1 ≠ "status") :
    (updateStatus limit st s extra ts).meta.lookup "status" = some s := by
  unfold updateStatus
  rw [appendEvent_meta]
  simp only [encodeMeta, List.map_append, List.map_cons, List.map_nil,
    List.cons_append, List.nil_append]
  rw [hsetMany_cons, hsetMany_cons]
  rw [hsetMany_lookup_notin]
  · rw [hsetField_lookup_other _ _ _ _ (by decide)]
    exact hsetField_lookup_self st.meta "status" s
  · intro p hp
    simp only [List.map_map, List.mem_map] at hp
    obtain ⟨q, hq, hpq⟩ := hp
    subst hpq
    exact hextra q hq

theorem metaLookup_updateStatus_status (limit : Nat) (st : JobState) (s : String)
    (extra : List (String × PyVal)) (ts : Nat)
    (hextra : ∀ p ∈ extra, p.1 ≠ "status") :
    metaLookup (updateStatus limit st s extra ts) "status" =
      some (decodeMetaValue s) := by
  unfold metaLookup
  rw [getMeta_lookup, updateStatus_meta_status limit st s extra ts hextra]
  rfl

theorem updateStatus_meta_lastExtra (limit : Nat) (st : JobState) (s k : String)
    (v : PyVal) (ts : Nat) :
    (updateStatus limit st s [(k, v)] ts).meta.lookup k =
      some (encodeMetaValue v) := by
  unfold updateStatus
  rw [appendEvent_meta]
  simp only [encodeMeta, List.map_append, List.map_cons, List.map_nil,
    List.cons_append, List.nil_append]
  rw [hsetMany_cons, hsetMany_cons, hsetMany_cons]
  exact hsetField_lookup_self _ k (encodeMetaValue v)

theorem appendEvent_channel (limit : Nat) (st : JobState) (e : Event) :
    (appendEvent limit st e).channel = st.channel ++ [serializeEvent e] := rfl

theorem updateStatus_channel (limit : Nat) (st : JobState) (s : String)
    (extra : List (String × PyVal)) (ts : Nat) :
    (updateStatus limit st s extra ts).channel =
      st.channel ++
        [serializeEvent
          ⟨"status", "system",
           .dict (PyDict.ofList
             ([("status", .str s), ("updated_at", .str (pyNatStr ts))] ++ extra)), ts⟩] := rfl

theorem mergeMeta_channel (st : JobState) (data : List (String × PyVal)) :
    (mergeMeta st data).channel = st.channel := rfl

/-! ## C9: `append_event` appends, trims from the head, publishes -/

/-- C9: every `append_event` call appends the serialized event at the end
of the durable log, trims the log from the head so that at most the soft
limit newest events are retained (ring-buffer semantics: the resulting log
is a suffix of the appended log, the serialized event is its last entry,
and its length is `min (previous + 1) limit`), and publishes the same
serialized message on the job's broadcast channel.  (`limit` is
`logLengthSoftLimit = 500` unless overridden; a positive limit is
assumed — Redis `LTRIM -0 -1` would keep everything.) -/
theorem appendEvent_appends_trims_publishes (limit : Nat) (st : JobState) (e : Event)
    (hl : 1 ≤ limit) :
    (appendEvent limit st e).channel = st.channel ++ [serializeEvent e] ∧
    (appendEvent limit st e).log =
      (st.log ++ [serializeEvent e]).drop (st.log.length + 1 - limit) ∧
    (appendEvent limit st e).log.length = min (st.log.length + 1) limit ∧
    (appendEvent limit st e).log.getLast? = some (serializeEvent e) ∧
    (appendEvent limit st e).log <:+ st.log ++ [serializeEvent e] := by
  have hlim : limit ≠ 0 := by omega
  have hlen : (st.log ++ [serializeEvent e]).length = st.log.length + 1 := by
    simp
  have hlog : (appendEvent limit st e).log =
      (st.log ++ [serializeEvent e]).drop (st.log.length + 1 - limit) := by
    show ltrimKeepLast limit (st.log ++ [serializeEvent e]) = _
    unfold ltrimKeepLast
    rw [if_neg hlim, hlen]
  refine ⟨rfl, hlog, ?_, ?_, ?_⟩
  · rw [hlog, List.length_drop, hlen]
    omega
  · rw [hlog]
    have hle : st.log.length + 1 - limit ≤ st.log.length := by omega
    rw [List.drop_append_of_le_length hle, List.getLast?_concat]
  · rw [hlog]
    exact List.drop_suffix _ _

/-- Witness for C9 at a concrete store and event. -/
theorem appendEvent_appends_trims_publishes_witness :
    (1 : Nat) ≤ 2 ∧
    ((appendEvent 2 ⟨["a", "b"], [], [], ["c"]⟩ (progressEvent "hi")).channel =
        ["c"] ++ [serializeEvent (progressEvent "hi")] ∧
      (appendEvent 2 ⟨["a", "b"], [], [], ["c"]⟩ (progressEvent "hi")).log =
        (["a", "b"] ++ [serializeEvent (progressEvent "hi")]).drop (2 + 1 - 2) ∧
      (appendEvent 2 ⟨["a", "b"], [], [], ["c"]⟩ (progressEvent "hi")).log.length =
        min (2 + 1) 2 ∧
      (appendEvent 2 ⟨["a", "b"], [], [], ["c"]⟩ (progressEvent "hi")).log.getLast? =
        some (serializeEvent (progressEvent "hi")) ∧
      (appendEvent 2 ⟨["a", "b"], [], [], ["c"]⟩ (progressEvent "hi")).log <:+
        ["a", "b"] ++ [serializeEvent (progressEvent "hi")]) :=
  ⟨by decide, appendEvent_appends_trims_publishes 2 ⟨["a", "b"], [], [], ["c"]⟩
    (progressEvent "hi") (by decide)⟩

/-! ## C2: the prompt-wait loop and cancellation -/

theorem promptLoop_all_none (pid : String) (dflt : Option String)
    (polls : List (Option String)) (hpolls : ∀ p ∈ polls, p = Option.none) :
    promptLoop pid dflt polls = (.waiting, []) := by
  induction polls with
  | nil => rfl
  | cons p t ih =>
    have hp := hpolls p (List.mem_cons_self _ _)
    subst hp
    exact ih fun q hq => hpolls q (List.mem_cons_of_mem _ hq)

/-- C2 (amended): the worker's prompt-wait loop contains no cancellation
check at all: a poll timeout makes it `continue` unconditionally, without
consulting the job's stored status.  If no user response arrives, the call
leaves only the `prompt` event; the job's metadata — in particular a
`cancelling` status — is untouched, so the Worker never observes the
cancellation there and the job does not reach `cancelled` through this
loop (cancellation acts only at the task-queue level, outside the
Worker). -/
theorem promptLoop_never_observes_cancellation (limit : Nat) (st : JobState)
    (fid : String) (spec : PromptSpec) (polls : List (Option String))
    (hpolls : ∀ p ∈ polls, p = Option.none) :
    (promptUser fid spec polls).1 = PromptOutcome.waiting ∧
    (promptUser fid spec polls).2 =
      [promptEvent (resolvedPromptId fid spec) spec] ∧
    (appendEvents limit st (promptUser fid spec polls).2).meta = st.meta := by
  have h := promptLoop_all_none (resolvedPromptId fid spec) spec.default polls hpolls
  refine ⟨?_, ?_, appendEvents_meta limit st _⟩
  · show (promptLoop (resolvedPromptId fid spec) spec.default polls).1 = _
    rw [h]
  · show promptEvent (resolvedPromptId fid spec) spec ::
      (promptLoop (resolvedPromptId fid spec) spec.default polls).2 = _
    rw [h]

/-- Witness for the amended C2 on a concrete all-timeout poll window. -/
theorem promptLoop_never_observes_cancellation_witness :
    (∀ p ∈ [Option.none, Option.none, (Option.none : Option String)], p = Option.none) ∧
    ((promptUser "u1" {} [Option.none, Option.none, Option.none]).1 =
        PromptOutcome.waiting ∧
      (promptUser "u1" {} [Option.none, Option.none, Option.none]).2 =
        [promptEvent (resolvedPromptId "u1" {}) {}] ∧
      (appendEvents 500 emptyJobState
        (promptUser "u1" {} [Option.none, Option.none, Option.none]).2).meta =
        emptyJobState.meta) :=
  ⟨by decide, promptLoop_never_observes_cancellation 500 emptyJobState "u1" {}
    [Option.none, Option.none, Option.none] (by decide)⟩

/-- Counterexample to C2 as stated: a job whose status is already
`cancelling` while the Worker is blocked in the prompt-wait loop with only
poll timeouts.  The next (and every later) poll-timeout iteration does not
observe the cancellation: the loop keeps waiting and the job's status stays
`cancelling` — it does not become `cancelled`. -/
theorem promptLoop_cancellation_counterexample :
    statusLowerOf
        (updateStatus 500
          (bootstrap 500 emptyJobState "job1" "TH" (some 3) Option.none Option.none 0)
          "cancelling" [] 0) = "cancelling" ∧
    (promptUser "u1" {} [Option.none, Option.none, Option.none]).1 =
      PromptOutcome.waiting ∧
    statusLowerOf
        (appendEvents 500
          (updateStatus 500
            (bootstrap 500 emptyJobState "job1" "TH" (some 3) Option.none Option.none 0)
            "cancelling" [] 0)
          (promptUser "u1" {} [Option.none, Option.none, Option.none]).2) =
      "cancelling" ∧
    statusLowerOf
        (appendEvents 500
          (updateStatus 500
            (bootstrap 500 emptyJobState "job1" "TH" (some 3) Option.none Option.none 0)
            "cancelling" [] 0)
          (promptUser "u1" {} [Option.none, Option.none, Option.none]).2) ≠
      "cancelled" := by decide

/-! ## C4: the worker's top-level exception handling -/

/-- C4 (amended): for every exception raised inside the report-generation
workflow, the Worker appends an error event (with the captured message,
plus a traceback for unexpected exceptions), sets the job's status to
`failed` with the message in the `error` field — so the job record is never
left stuck in `running` — and then *re-raises* the exception to the task
queue layer (both `except` handlers end in `raise`; the exception does
propagate out of `run_analytical_report_job`). -/
theorem runJob_records_failure_then_reraises (limit : Nat) (st : JobState)
    (jobId teamTag : String) (matchCount : Option Int) (e : GenError)
    (gen : Except GenError PyVal) (hgen : gen = .error e) :
    (runAnalyticalReportJob limit st jobId teamTag matchCount gen).2 = .error e ∧
    (runAnalyticalReportJob limit st jobId teamTag matchCount gen).1.meta.lookup
      "status" = some "failed" ∧
    (runAnalyticalReportJob limit st jobId teamTag matchCount gen).1.meta.lookup
      "error" = some (genErrorMessage e) ∧
    statusLowerOf (runAnalyticalReportJob limit st jobId teamTag matchCount gen).1 =
      "failed" ∧
    serializeEvent (workerErrorEvent e) ∈
      (runAnalyticalReportJob limit st jobId teamTag matchCount gen).1.channel := by
  subst hgen
  have hextra : ∀ p ∈ [("error", PyVal.str (genErrorMessage e))], p.1 ≠ "status" := by
    intro p hp
    simp only [List.mem_singleton] at hp
    subst hp
    simp
  refine ⟨rfl, ?_, ?_, ?_, ?_⟩
  · exact updateStatus_meta_status _ _ _ _ _ hextra
  · exact updateStatus_meta_lastExtra _ _ _ _ _ _
  · have h1 : metaLookup
        (runAnalyticalReportJob limit st jobId teamTag matchCount (.error e)).1
        "status" = some (decodeMetaValue "failed") :=
      metaLookup_updateStatus_status _ _ _ _ _ hextra
    unfold statusLowerOf
    rw [h1]
    decide
  · simp only [runAnalyticalReportJob]
    rw [updateStatus_channel, appendEvent_channel]
    simp

/-- Witness for the amended C4 at a concrete failing workflow. -/
theorem runJob_records_failure_then_reraises_witness :
    ((Except.error (.reportError "boom") : Except GenError PyVal) =
      .error (.reportError "boom")) ∧
    ((runAnalyticalReportJob 500 emptyJobState "job1" "TH" Option.none
        (.error (.reportError "boom"))).2 = .error (.reportError "boom") ∧
      (runAnalyticalReportJob 500 emptyJobState "job1" "TH" Option.none
        (.error (.reportError "boom"))).1.meta.lookup "status" = some "failed" ∧
      (runAnalyticalReportJob 500 emptyJobState "job1" "TH" Option.none
        (.error (.reportError "boom"))).1.meta.lookup "error" =
        some (genErrorMessage (.reportError "boom")) ∧
      statusLowerOf (runAnalyticalReportJob 500 emptyJobState "job1" "TH" Option.none
        (.error (.reportError "boom"))).1 = "failed" ∧
      serializeEvent (workerErrorEvent (.reportError "boom")) ∈
        (runAnalyticalReportJob 500 emptyJobState "job1" "TH" Option.none
          (.error (.reportError "boom"))).1.channel) :=
  ⟨rfl, runJob_records_failure_then_reraises 500 emptyJobState "job1" "TH" Option.none
    (.reportError "boom") (.error (.reportError "boom")) rfl⟩

/-- Counterexample to C4 as stated: on a concrete failing workflow the
exception *does* propagate out of the worker's top-level run (the function's
outcome is the re-raised exception), even though the job was duly marked
`failed` first. -/
theorem runJob_propagates_exception_counterexample :
    (runAnalyticalReportJob 500 emptyJobState "job1" "TH" Option.none
        (.error (.reportError "boom"))).2 = .error (.reportError "boom") ∧
    statusLowerOf (runAnalyticalReportJob 500 emptyJobState "job1" "TH" Option.none
        (.error (.reportError "boom"))).1 = "failed" := by decide

/-! ## C1: the cancellation endpoint -/

/-- C1: for an existing job whose (lower-cased) status is terminal
(`finished`, `failed` or `cancelled`), a cancellation request is a no-op
returning the current terminal status; for a job in any non-terminal state
it marks the status `cancelling` in the store (via the spec-modelled
`request_cancel`), best-effort cancels the underlying RQ task when the task
registry has it, and purges the other queued jobs from the analytical
queue. -/
theorem cancelledByExtra_ne_status (cb : Option String) :
    ∀ p ∈ cancelledByExtra cb, p.1 ≠ "status" := by
  cases cb with
  | some u =>
    intro p hp
    simp only [cancelledByExtra, List.mem_singleton] at hp
    subst hp
    simp
  | none => intro p hp; simp [cancelledByExtra] at hp

theorem requestCancel_meta_status (limit : Nat) (st : JobState) (cb : Option String) :
    (requestCancel limit st cb).meta.lookup "status" = some "cancelling" :=
  updateStatus_meta_status _ _ _ _ _ (cancelledByExtra_ne_status cb)

theorem requestCancel_statusLower (limit : Nat) (st : JobState) (cb : Option String) :
    statusLowerOf (requestCancel limit st cb) = "cancelling" := by
  have h1 : metaLookup (requestCancel limit st cb) "status" =
      some (decodeMetaValue "cancelling") :=
    metaLookup_updateStatus_status _ _ _ _ _ (cancelledByExtra_ne_status cb)
  unfold statusLowerOf
  rw [h1]
  decide

theorem cancel_endpoint_spec (limit : Nat) (sys : CancelSystem) (cb : Option String)
    (hmeta : sys.job.meta ≠ []) :
    (terminalStatuses.contains (statusLowerOf sys.job) = true →
      cancelAnalyticalJob limit sys cb =
        (.alreadyCompleted (statusLowerOf sys.job), sys)) ∧
    (terminalStatuses.contains (statusLowerOf sys.job) = false →
      (cancelAnalyticalJob limit sys cb).1 = .cancellationRequested ∧
      (cancelAnalyticalJob limit sys cb).2.job.meta.lookup "status" =
        some "cancelling" ∧
      statusLowerOf (cancelAnalyticalJob limit sys cb).2.job = "cancelling" ∧
      (cancelAnalyticalJob limit sys cb).2.rqTaskCancelled =
        sys.rqTaskCancelled.map (fun _ => true) ∧
      (cancelAnalyticalJob limit sys cb).2.pendingQueue = []) := by
  have hne : (getMeta sys.job).isEmpty = false := by
    unfold getMeta
    cases hm : sys.job.meta with
    | nil => exact absurd hm hmeta
    | cons p t => simp
  constructor
  · intro hterm
    have hterm' : statusLowerOf sys.job ∈ terminalStatuses := by simpa using hterm
    simp [cancelAnalyticalJob, hne, hterm']
  · intro hterm
    have hterm' : statusLowerOf sys.job ∉ terminalStatuses := by simpa using hterm
    refine ⟨?_, ?_, ?_, ?_, ?_⟩ <;>
      simp [cancelAnalyticalJob, hne, hterm', requestCancel_meta_status,
        requestCancel_statusLower]

/-- Witness for C1, exercising both the terminal no-op branch and the
non-terminal cancellation branch at concrete stores. -/
theorem cancel_endpoint_spec_witness :
    ((⟨⟨[], [("status", "finished")], [], []⟩, some false, ["j2"]⟩ :
        CancelSystem).job.meta ≠ [] ∧
      (terminalStatuses.contains
          (statusLowerOf (⟨⟨[], [("status", "finished")], [], []⟩, some false,
            ["j2"]⟩ : CancelSystem).job) = true →
        cancelAnalyticalJob 500
            ⟨⟨[], [("status", "finished")], [], []⟩, some false, ["j2"]⟩
            (some "alice") =
          (.alreadyCompleted
            (statusLowerOf (⟨⟨[], [("status", "finished")], [], []⟩, some false,
              ["j2"]⟩ : CancelSystem).job),
           ⟨⟨[], [("status", "finished")], [], []⟩, some false, ["j2"]⟩))) ∧
    ((⟨⟨[], [("status", "running")], [], []⟩, some false, ["j2"]⟩ :
        CancelSystem).job.meta ≠ [] ∧
      (terminalStatuses.contains
          (statusLowerOf (⟨⟨[], [("status", "running")], [], []⟩, some false,
            ["j2"]⟩ : CancelSystem).job) = false →
        (cancelAnalyticalJob 500
            ⟨⟨[], [("status", "running")], [], []⟩, some false, ["j2"]⟩
            (some "alice")).1 = .cancellationRequested ∧
        (cancelAnalyticalJob 500
            ⟨⟨[], [("status", "running")], [], []⟩, some false, ["j2"]⟩
            (some "alice")).2.job.meta.lookup "status" = some "cancelling" ∧
        statusLowerOf (cancelAnalyticalJob 500
            ⟨⟨[], [("status", "running")], [], []⟩, some false, ["j2"]⟩
            (some "alice")).2.job = "cancelling" ∧
        (cancelAnalyticalJob 500
            ⟨⟨[], [("status", "running")], [], []⟩, some false, ["j2"]⟩
            (some "alice")).2.rqTaskCancelled =
          (some false : Option Bool).map (fun _ => true) ∧
        (cancelAnalyticalJob 500
            ⟨⟨[], [("status", "running")], [], []⟩, some false, ["j2"]⟩
            (some "alice")).2.pendingQueue = [])) :=
  ⟨⟨by decide,
    (cancel_endpoint_spec 500
      ⟨⟨[], [("status", "finished")], [], []⟩, some false, ["j2"]⟩
      (some "alice") (by decide)).1⟩,
   ⟨by decide,
    (cancel_endpoint_spec 500
      ⟨⟨[], [("status", "running")], [], []⟩, some false, ["j2"]⟩
      (some "alice") (by decide)).2⟩⟩

/-! ## C3 and C6: the Resilient API Writer's retry discipline -/

theorem retryLoop_rateLimited_ok (n : Nat) :
    ∀ (maxRetries : Nat) (base cap : Rat) (v : α) (msg d : String) (k attempt : Nat),
      attempt ≤ k → k ≤ maxRetries → k - attempt = n →
      retryLoop maxRetries base cap (rateLimitedOp k v msg) d attempt =
        ⟨.ok v, n + 1,
         (List.range n).map (fun j => min cap (base * 2 ^ (attempt + j)))⟩ := by
  induction n with
  | zero =>
    intro maxRetries base cap v msg d k attempt h1 h2 h3
    have hak : attempt = k := by omega
    subst hak
    rw [retryLoop]
    simp [rateLimitedOp]
  | succ m ih =>
    intro maxRetries base cap v msg d k attempt h1 h2 h3
    have hlt : attempt < k := by omega
    have hltm : attempt < maxRetries := by omega
    rw [retryLoop]
    simp only [rateLimitedOp, hlt, if_pos, ite_true]
    rw [dif_pos ⟨trivial, hltm⟩]
    rw [ih maxRetries base cap v msg d k (attempt + 1) (by omega) h2 (by omega)]
    have harith : ∀ j : Nat, attempt + 1 + j = attempt + (j + 1) := by omega
    simp [List.range_succ_eq_map, List.map_map, Function.comp_def, harith]

theorem retryLoop_rateLimited_exhausted (n : Nat) :
    ∀ (maxRetries : Nat) (base cap : Rat) (v : α) (msg d : String) (k attempt : Nat),
      attempt ≤ maxRetries → maxRetries < k → maxRetries - attempt = n →
      retryLoop maxRetries base cap (rateLimitedOp k v msg) d attempt =
        ⟨.error (.domain (d ++ " failed: " ++ msg)), n + 1,
         (List.range n).map (fun j => min cap (base * 2 ^ (attempt + j)))⟩ := by
  induction n with
  | zero =>
    intro maxRetries base cap v msg d k attempt h1 h2 h3
    have hak : attempt = maxRetries := by omega
    subst hak
    have hlt : attempt < k := h2
    rw [retryLoop]
    simp only [rateLimitedOp, hlt, if_pos, ite_true]
    rw [dif_neg (by simp : ¬(True ∧ attempt < attempt))]
    simp
  | succ m ih =>
    intro maxRetries base cap v msg d k attempt h1 h2 h3
    have hlt : attempt < k := by omega
    have hltm : attempt < maxRetries := by omega
    rw [retryLoop]
    simp only [rateLimitedOp, hlt, if_pos, ite_true]
    rw [dif_pos ⟨trivial, hltm⟩]
    rw [ih maxRetries base cap v msg d k (attempt + 1) (by omega) h2 (by omega)]
    have harith : ∀ j : Nat, attempt + 1 + j = attempt + (j + 1) := by omega
    simp [List.range_succ_eq_map, List.map_map, Function.comp_def, harith]

/-- C3 (amended): a wrapped call that fails with a rate-limit error exactly
`k` times and then succeeds returns the successful result after exactly
`k + 1` attempts whenever `k ≤ maxRetries` (not only `k < maxRetries`: one
more failure than the retry count is still absorbed, because the retry
guard `attempt < maxRetries` compares the zero-based count of *previous*
failures), sleeping `min(cap, base * 2 ^ attempt)` before each retry; only
when the call fails *more than* `maxRetries` times does the writer raise
the domain error, after exactly `maxRetries + 1` attempts. -/
theorem executeWithRetry_retry_law (maxRetries : Nat) (base cap : Rat) (v : α)
    (msg d : String) (k : Nat) :
    (k ≤ maxRetries →
      executeWithRetry maxRetries base cap (rateLimitedOp k v msg) d =
        ⟨.ok v, k + 1, (List.range k).map (fun j => min cap (base * 2 ^ j))⟩) ∧
    (maxRetries < k →
      executeWithRetry maxRetries base cap (rateLimitedOp k v msg) d =
        ⟨.error (.domain (d ++ " failed: " ++ msg)), maxRetries + 1,
         (List.range maxRetries).map (fun j => min cap (base * 2 ^ j))⟩) := by
  constructor
  · intro hk
    unfold executeWithRetry
    rw [retryLoop_rateLimited_ok (k - 0) maxRetries base cap v msg d k 0
      (by omega) hk rfl]
    simp
  · intro hk
    unfold executeWithRetry
    rw [retryLoop_rateLimited_exhausted (maxRetries - 0) maxRetries base cap v msg d
      k 0 (by omega) hk rfl]
    simp

/-- Witness for the amended C3: both branches at concrete inputs (defaults
`maxRetries = 6`, `base = 5`, `cap = 60`). -/
theorem executeWithRetry_retry_law_witness :
    ((2 : Nat) ≤ 6 ∧
      executeWithRetry 6 5 60 (rateLimitedOp 2 (0 : Nat) "quota") "Op" =
        ⟨.ok 0, 2 + 1, (List.range 2).map (fun j => min 60 (5 * 2 ^ j))⟩) ∧
    ((6 : Nat) < 8 ∧
      executeWithRetry 6 5 60 (rateLimitedOp 8 (0 : Nat) "quota") "Op" =
        ⟨.error (.domain ("Op failed: quota")), 6 + 1,
         (List.range 6).map (fun j => min 60 (5 * 2 ^ j))⟩) :=
  ⟨⟨by decide, (executeWithRetry_retry_law 6 5 60 0 "quota" "Op" 2).1 (by decide)⟩,
   ⟨by decide, (executeWithRetry_retry_law 6 5 60 0 "quota" "Op" 8).2 (by decide)⟩⟩

/-- Counterexample to C3 as stated: with the default configuration
(`maxRetries = 6`), an operation that fails with a rate-limit error exactly
`6 = maxRetries` times and then succeeds — the claim requires the writer to
raise a domain error after 7 attempts, but it returns the successful result
after 7 attempts (and its backoff schedule was
`[5, 10, 20, 40, 60, 60]`). -/
theorem retry_boundary_counterexample :
    (executeWithRetry writeMaxRetries writeBackoffSeconds writeBackoffCap
        (rateLimitedOp 6 (0 : Nat) "quota") "Op").result = .ok 0 ∧
    (executeWithRetry writeMaxRetries writeBackoffSeconds writeBackoffCap
        (rateLimitedOp 6 (0 : Nat) "quota") "Op").attempts = 7 ∧
    (executeWithRetry writeMaxRetries writeBackoffSeconds writeBackoffCap
        (rateLimitedOp 6 (0 : Nat) "quota") "Op").isDomainError = false ∧
    (executeWithRetry writeMaxRetries writeBackoffSeconds writeBackoffCap
        (rateLimitedOp 6 (0 : Nat) "quota") "Op").sleeps =
      [5, 10, 20, 40, 60, 60] := by
  have h : executeWithRetry writeMaxRetries writeBackoffSeconds writeBackoffCap
      (rateLimitedOp 6 (0 : Nat) "quota") "Op" =
      ⟨.ok 0, 6 + 1, (List.range 6).map (fun j => min 60 (5 * 2 ^ j))⟩ := by
    unfold executeWithRetry writeMaxRetries writeBackoffSeconds writeBackoffCap
    rw [retryLoop_rateLimited_ok (6 - 0) 6 5 60 0 "quota" "Op" 6 0 (by omega)
      (by omega) rfl]
    simp
  rw [h]
  refine ⟨rfl, rfl, rfl, ?_⟩
  show List.map (fun j => min (60 : Rat) (5 * 2 ^ j)) (List.range 6) =
    [5, 10, 20, 40, 60, 60]
  rw [show List.range 6 = [0, 1, 2, 3, 4, 5] from rfl]
  simp only [List.map_cons, List.map_nil]
  norm_num [min_def]

/-- C6 (amended): a wrapped call that fails with any non-rate-limit error is
attempted exactly once and the failure is raised immediately with no backoff
sleeps; a non-429 `APIError` is wrapped into the domain error carrying the
human-readable description of the failed operation, while an exception that
is not an `APIError` at all propagates unwrapped (the `except APIError`
clause does not catch it, so no domain error is raised for it). -/
theorem executeWithRetry_non_rate_limit (maxRetries : Nat) (base cap : Rat)
    (op : Nat → Except ApiErr α) (d : String) :
    (∀ status msg, op 0 = .error (.apiError status msg) → status ≠ some 429 →
      executeWithRetry maxRetries base cap op d =
        ⟨.error (.domain (d ++ " failed: " ++ msg)), 1, []⟩) ∧
    (∀ msg, op 0 = .error (.other msg) →
      executeWithRetry maxRetries base cap op d =
        ⟨.error (.raw (.other msg)), 1, []⟩) := by
  constructor
  · intro status msg hop hstatus
    unfold executeWithRetry
    rw [retryLoop, hop]
    simp only [dif_neg (show ¬(status = some 429 ∧ 0 < maxRetries) from
      fun hand => hstatus hand.1)]
  · intro msg hop
    unfold executeWithRetry
    rw [retryLoop, hop]

/-- Witness for the amended C6: a 403 `APIError` is wrapped and raised after
one attempt; a non-`APIError` exception is re-raised unwrapped after one
attempt. -/
theorem executeWithRetry_non_rate_limit_witness :
    (((fun _ => .error (.apiError (some 403) "denied") : Nat → Except ApiErr Nat) 0 =
        .error (.apiError (some 403) "denied") ∧
      (some (403 : Int) ≠ some 429) ∧
      executeWithRetry 6 5 60
          (fun _ => .error (.apiError (some 403) "denied") : Nat → Except ApiErr Nat)
          "Formatting A5:G12 on Overall" =
        ⟨.error (.domain ("Formatting A5:G12 on Overall failed: denied")), 1, []⟩) ∧
    (((fun _ => .error (.other "socket closed") : Nat → Except ApiErr Nat) 0 =
        .error (.other "socket closed")) ∧
      executeWithRetry 6 5 60
          (fun _ => .error (.other "socket closed") : Nat → Except ApiErr Nat) "Op" =
        ⟨.error (.raw (.other "socket closed")), 1, []⟩)) :=
  ⟨⟨rfl, by decide,
    (executeWithRetry_non_rate_limit 6 5 60
      (fun _ => .error (.apiError (some 403) "denied"))
      "Formatting A5:G12 on Overall").1 (some 403) "denied" rfl (by decide)⟩,
   ⟨rfl,
    (executeWithRetry_non_rate_limit 6 5 60
      (fun _ => .error (.other "socket closed")) "Op").2 "socket closed" rfl⟩⟩

/-- Counterexample to C6 as stated: an operation failing with an exception
that is not an `APIError` (e.g. a transport error).  The writer attempts it
exactly once and re-raises it, but what is raised is the original exception,
not a domain error wrapping it. -/
theorem non_api_error_not_wrapped_counterexample :
    (executeWithRetry 6 5 60
        (fun _ => .error (.other "socket closed") : Nat → Except ApiErr Nat)
        "Op").result = .error (.raw (.other "socket closed")) ∧
    (executeWithRetry 6 5 60
        (fun _ => .error (.other "socket closed") : Nat → Except ApiErr Nat)
        "Op").attempts = 1 ∧
    (executeWithRetry 6 5 60
        (fun _ => .error (.other "socket closed") : Nat → Except ApiErr Nat)
        "Op").isDomainError = false := by
  have h : executeWithRetry 6 5 60
      (fun _ => .error (.other "socket closed") : Nat → Except ApiErr Nat) "Op" =
      ⟨.error (.raw (.other "socket closed")), 1, []⟩ := by
    unfold executeWithRetry
    rw [retryLoop]
  rw [h]
  exact ⟨rfl, rfl, rfl⟩

/-! ## C8: caller-supplied match count, clamping -/

theorem prependPickEvents_nil (o : PickOutcome) : prependPickEvents [] o = o := by
  cases o <;> simp [prependPickEvents]

theorem confirmLoop_one_yes (ms : List String) (available count : Nat)
    (summarize : String → String) (hsel : (ms.take count).isEmpty = false) :
    confirmLoop ms available summarize true 1 count ["yes"] =
      .picked (ms.take count) (selectionSummaryEvents (ms.take count) summarize) := by
  show confirmLoop ms available summarize true (0 + 1) count ["yes"] = _
  simp only [confirmLoop, hsel, Bool.false_eq_true, if_false, Bool.not_true]
  rfl

theorem confirmLoop_noninteractive (ms : List String) (available count : Nat)
    (summarize : String → String) (hsel : (ms.take count).isEmpty = false) :
    confirmLoop ms available summarize false 1 count [] =
      .picked (ms.take count) (selectionSummaryEvents (ms.take count) summarize) := by
  show confirmLoop ms available summarize false (0 + 1) count [] = _
  simp only [confirmLoop, hsel, Bool.false_eq_true, if_false, Bool.not_false]
  rfl

theorem clampNotice_not_mem_summary (selected : List String)
    (summarize : String → String) (a : Nat) :
    PickEvent.clampNotice a ∉ selectionSummaryEvents selected summarize := by
  unfold selectionSummaryEvents
  split <;> simp

/-- C8: with a caller-supplied positive `match_count` `m` and `n` matches
available, the Worker (whether the selection is then confirmed through the
interactive prompt or no prompt handler is attached) selects exactly the
`m` most recent matches and emits no clamping warning when `m ≤ n`; when
`m > n` it emits the clamping progress notice and the effective selection
is exactly the `n` available matches. -/
theorem pickMatches_count_clamping (ms : List String) (m : Int)
    (summarize : String → String) (hne : ms ≠ []) (hm : 0 < m) :
    (m ≤ (ms.length : Int) →
      (∃ evs, pickMatchesGiven ms m summarize true ["yes"] 1 =
          .picked (ms.take m.toNat) evs ∧ ∀ a, PickEvent.clampNotice a ∉ evs) ∧
      (∃ evs, pickMatchesGiven ms m summarize false [] 1 =
          .picked (ms.take m.toNat) evs ∧ ∀ a, PickEvent.clampNotice a ∉ evs)) ∧
    ((ms.length : Int) < m →
      (∃ evs, pickMatchesGiven ms m summarize true ["yes"] 1 = .picked ms evs ∧
        PickEvent.clampNotice ms.length ∈ evs) ∧
      (∃ evs, pickMatchesGiven ms m summarize false [] 1 = .picked ms evs ∧
        PickEvent.clampNotice ms.length ∈ evs)) := by
  have hlen : ms.length ≠ 0 := fun h => hne (List.length_eq_zero.mp h)
  have hm0 : ¬(m ≤ 0) := by omega
  constructor
  · intro hle
    have hlt : ¬((ms.length : Int) < m) := by omega
    have htake : (ms.take m.toNat).isEmpty = false := by
      rw [List.isEmpty_eq_false]
      intro h
      rcases List.take_eq_nil_iff.mp h with h0 | h0
      · omega
      · exact hne h0
    constructor
    · refine ⟨selectionSummaryEvents (ms.take m.toNat) summarize, ?_, ?_⟩
      · unfold pickMatchesGiven
        rw [if_neg hlen, if_neg hm0, if_neg hlt, if_neg hlt]
        show prependPickEvents []
          (confirmLoop ms ms.length summarize true 1 m.toNat ["yes"]) = _
        rw [confirmLoop_one_yes ms ms.length m.toNat summarize htake,
          prependPickEvents_nil]
      · exact clampNotice_not_mem_summary _ _
    · refine ⟨selectionSummaryEvents (ms.take m.toNat) summarize, ?_, ?_⟩
      · unfold pickMatchesGiven
        rw [if_neg hlen, if_neg hm0, if_neg hlt, if_neg hlt]
        show prependPickEvents []
          (confirmLoop ms ms.length summarize false 1 m.toNat []) = _
        rw [confirmLoop_noninteractive ms ms.length m.toNat summarize htake,
          prependPickEvents_nil]
      · exact clampNotice_not_mem_summary _ _
  · intro hlt
    have htake : (ms.take ms.length).isEmpty = false := by
      rw [List.take_length, List.isEmpty_eq_false]
      exact hne
    constructor
    · refine ⟨PickEvent.clampNotice ms.length ::
        selectionSummaryEvents ms summarize, ?_, ?_⟩
      · unfold pickMatchesGiven
        rw [if_neg hlen, if_neg hm0, if_pos hlt, if_pos hlt]
        show prependPickEvents [PickEvent.clampNotice ms.length]
          (confirmLoop ms ms.length summarize true 1 ms.length ["yes"]) = _
        rw [confirmLoop_one_yes ms ms.length ms.length summarize htake,
          List.take_length]
        rfl
      · simp
    · refine ⟨PickEvent.clampNotice ms.length ::
        selectionSummaryEvents ms summarize, ?_, ?_⟩
      · unfold pickMatchesGiven
        rw [if_neg hlen, if_neg hm0, if_pos hlt, if_pos hlt]
        show prependPickEvents [PickEvent.clampNotice ms.length]
          (confirmLoop ms ms.length summarize false 1 ms.length []) = _
        rw [confirmLoop_noninteractive ms ms.length ms.length summarize htake,
          List.take_length]
        rfl
      · simp

/-- Witness for C8: 5 available matches, `match_count = 3` (selection of
the 3 most recent, no clamping) and `match_count = 50` (clamped to 5 with
the clamping notice), each on both the interactive-confirm and the
no-handler path. -/
theorem pickMatches_count_clamping_witness :
    ((["m1", "m2", "m3", "m4", "m5"] : List String) ≠ [] ∧ (0 : Int) < 3 ∧
      ((3 : Int) ≤ ((["m1", "m2", "m3", "m4", "m5"] : List String).length : Int) →
        (∃ evs, pickMatchesGiven ["m1", "m2", "m3", "m4", "m5"] 3 id true ["yes"] 1 =
            .picked ((["m1", "m2", "m3", "m4", "m5"] : List String).take (3 : Int).toNat)
              evs ∧ ∀ a, PickEvent.clampNotice a ∉ evs) ∧
        (∃ evs, pickMatchesGiven ["m1", "m2", "m3", "m4", "m5"] 3 id false [] 1 =
            .picked ((["m1", "m2", "m3", "m4", "m5"] : List String).take (3 : Int).toNat)
              evs ∧ ∀ a, PickEvent.clampNotice a ∉ evs))) ∧
    ((0 : Int) < 50 ∧
      (((["m1", "m2", "m3", "m4", "m5"] : List String).length : Int) < 50 →
        (∃ evs, pickMatchesGiven ["m1", "m2", "m3", "m4", "m5"] 50 id true ["yes"] 1 =
            .picked ["m1", "m2", "m3", "m4", "m5"] evs ∧
          PickEvent.clampNotice (["m1", "m2", "m3", "m4", "m5"] : List String).length ∈
            evs) ∧
        (∃ evs, pickMatchesGiven ["m1", "m2", "m3", "m4", "m5"] 50 id false [] 1 =
            .picked ["m1", "m2", "m3", "m4", "m5"] evs ∧
          PickEvent.clampNotice (["m1", "m2", "m3", "m4", "m5"] : List String).length ∈
            evs))) :=
  ⟨⟨by decide, by decide,
    (pickMatches_count_clamping ["m1", "m2", "m3", "m4", "m5"] 3 id (by decide)
      (by decide)).1⟩,
   ⟨by decide,
    (pickMatches_count_clamping ["m1", "m2", "m3", "m4", "m5"] 50 id (by decide)
      (by decide)).2⟩⟩

/-! ## C5: finalization sub-steps are best-effort — except sharing -/

theorem runJob_success (limit : Nat) (st : JobState) (jobId teamTag : String)
    (mc : Option Int) (r : PyVal) (gen : Except GenError PyVal) (h : gen = .ok r) :
    statusLowerOf (runAnalyticalReportJob limit st jobId teamTag mc gen).1 =
      "finished" ∧
    (runAnalyticalReportJob limit st jobId teamTag mc gen).2 = .ok r := by
  subst h
  refine ⟨?_, rfl⟩
  have h1 : metaLookup (runAnalyticalReportJob limit st jobId teamTag mc (.ok r)).1
      "status" = some (decodeMetaValue "finished") :=
    metaLookup_updateStatus_status _ _ _ _ _ (by intro p hp; simp at hp)
  unfold statusLowerOf
  rw [h1]
  decide

theorem finalizeReport_domain_char
    (cu : String → String → Option Int → String × String × String)
    (recipient : Option String) (viewFail gidFail pubFail : Option String)
    (gidVal : Int) (link : String) (hlink : link ≠ "") (sid editUrl : String) :
    finalizeReport cu recipient (.ok ()) (domainOr viewFail ())
        (domainOr gidFail gidVal) (domainOr pubFail link) sid editUrl =
      .ok (finalizeUrls cu pubFail link gidFail gidVal sid editUrl,
        finalizeEvs viewFail gidFail pubFail
          (finalizeUrls cu pubFail link gidFail gidVal sid editUrl).spreadsheetUrl) := by
  unfold finalizeReport
  rcases recipient with _ | r
  · cases viewFail <;> cases gidFail <;> cases pubFail <;>
      simp [domainOr, catchDomain, finalizeUrls, finalizeEvs, warnList, gidOpt, hlink,
        Except.map]
  · by_cases hr : r = "" <;> cases viewFail <;> cases gidFail <;> cases pubFail <;>
      simp [domainOr, catchDomain, finalizeUrls, finalizeEvs, warnList, gidOpt,
        hlink, hr, Except.map]

/-- C5 (amended): when the sharing sub-step succeeds, each of the remaining
finalization sub-steps (make publicly viewable, resolve the embed tab,
publish for embedding) is best-effort: a domain-error failure of any of
them still lets the job reach `finished` with whatever URLs could be
produced (fallback URLs built from the spreadsheet id when publishing
failed), and the failure surfaces only as warning progress events.  The
sharing sub-step (`_share_spreadsheet`) is *not* wrapped in any
`try/except`, so its failure propagates and fails the job (see the
counterexample). -/
theorem finalize_best_effort_except_share
    (cu : String → String → Option Int → String × String × String)
    (recipient : Option String) (viewFail gidFail pubFail : Option String)
    (gidVal : Int) (link : String) (hlink : link ≠ "")
    (sid editUrl tb : String) (limit : Nat) (st : JobState)
    (jobId teamTag : String) (mc : Option Int) :
    ∃ urls evs,
      finalizeReport cu recipient (.ok ()) (domainOr viewFail ())
          (domainOr gidFail gidVal) (domainOr pubFail link) sid editUrl =
        .ok (urls, evs) ∧
      (∀ m, viewFail = some m → FinEvent.publicViewWarning m ∈ evs) ∧
      (∀ m, gidFail = some m → FinEvent.gidWarning m ∈ evs) ∧
      (∀ m, pubFail = some m → FinEvent.publishWarning m ∈ evs ∧
        urls = ⟨fallbackEmbedUrl sid (gidOpt gidFail gidVal), editUrl,
                fallbackCsvUrl sid (gidOpt gidFail gidVal), editUrl⟩) ∧
      statusLowerOf (runAnalyticalReportJob limit st jobId teamTag mc
          (generateFromFinalize cu recipient (.ok ()) (domainOr viewFail ())
            (domainOr gidFail gidVal) (domainOr pubFail link) sid editUrl tb)).1 =
        "finished" ∧
      (runAnalyticalReportJob limit st jobId teamTag mc
          (generateFromFinalize cu recipient (.ok ()) (domainOr viewFail ())
            (domainOr gidFail gidVal) (domainOr pubFail link) sid editUrl tb)).2 =
        .ok (reportResultVal urls sid) := by
  have hfin := finalizeReport_domain_char cu recipient viewFail gidFail pubFail
    gidVal link hlink sid editUrl
  refine ⟨finalizeUrls cu pubFail link gidFail gidVal sid editUrl,
    finalizeEvs viewFail gidFail pubFail
      (finalizeUrls cu pubFail link gidFail gidVal sid editUrl).spreadsheetUrl,
    hfin, ?_, ?_, ?_, ?_, ?_⟩
  · intro m hm
    subst hm
    simp [finalizeEvs, warnList]
  · intro m hm
    subst hm
    simp [finalizeEvs, warnList]
  · intro m hm
    subst hm
    refine ⟨by simp [finalizeEvs, warnList], ?_⟩
    simp [finalizeUrls]
  · have hgen : generateFromFinalize cu recipient (.ok ()) (domainOr viewFail ())
        (domainOr gidFail gidVal) (domainOr pubFail link) sid editUrl tb =
        .ok (reportResultVal (finalizeUrls cu pubFail link gidFail gidVal sid editUrl)
          sid) := by
      unfold generateFromFinalize
      rw [hfin]
    exact (runJob_success limit st jobId teamTag mc _ _ hgen).1
  · have hgen : generateFromFinalize cu recipient (.ok ()) (domainOr viewFail ())
        (domainOr gidFail gidVal) (domainOr pubFail link) sid editUrl tb =
        .ok (reportResultVal (finalizeUrls cu pubFail link gidFail gidVal sid editUrl)
          sid) := by
      unfold generateFromFinalize
      rw [hfin]
    exact (runJob_success limit st jobId teamTag mc _ _ hgen).2

/-- Witness for the amended C5 (Scenario D shape): the publish sub-step
fails with a domain error (and so does the gid lookup), sharing and
public-view succeed — the job still finishes with the fallback URLs and the
warnings are in the event list. -/
theorem finalize_best_effort_except_share_witness :
    ("https://docs.google.com/pub" : String) ≠ "" ∧
    (∃ urls evs,
      finalizeReport (fun l s _ => (l, l, s)) (some "a@b.c") (.ok ())
          (domainOr Option.none ()) (domainOr (some "no tab") 7)
          (domainOr (some "publish denied") "https://docs.google.com/pub")
          "sid1" "edit1" =
        .ok (urls, evs) ∧
      (∀ m, (Option.none : Option String) = some m →
        FinEvent.publicViewWarning m ∈ evs) ∧
      (∀ m, (some "no tab" : Option String) = some m → FinEvent.gidWarning m ∈ evs) ∧
      (∀ m, (some "publish denied" : Option String) = some m →
        FinEvent.publishWarning m ∈ evs ∧
        urls = ⟨fallbackEmbedUrl "sid1" (gidOpt (some "no tab") 7), "edit1",
                fallbackCsvUrl "sid1" (gidOpt (some "no tab") 7), "edit1"⟩) ∧
      statusLowerOf (runAnalyticalReportJob 500 emptyJobState "job1" "TH" Option.none
          (generateFromFinalize (fun l s _ => (l, l, s)) (some "a@b.c") (.ok ())
            (domainOr Option.none ()) (domainOr (some "no tab") 7)
            (domainOr (some "publish denied") "https://docs.google.com/pub")
            "sid1" "edit1" "tb")).1 = "finished" ∧
      (runAnalyticalReportJob 500 emptyJobState "job1" "TH" Option.none
          (generateFromFinalize (fun l s _ => (l, l, s)) (some "a@b.c") (.ok ())
            (domainOr Option.none ()) (domainOr (some "no tab") 7)
            (domainOr (some "publish denied") "https://docs.google.com/pub")
            "sid1" "edit1" "tb")).2 = .ok (reportResultVal urls "sid1")) :=
  ⟨by decide,
   finalize_best_effort_except_share (fun l s _ => (l, l, s)) (some "a@b.c")
     Option.none (some "no tab") (some "publish denied") 7
     "https://docs.google.com/pub" (by decide) "sid1" "edit1" "tb" 500
     emptyJobState "job1" "TH" Option.none⟩

/-- Counterexample to C5 as stated: a failure of the *sharing* finalization
sub-step alone (an `AnalyticalReportError` from `_share_spreadsheet`, which
`generate_analytical_report` does not wrap in any `try`) propagates out of
finalization and the job ends `failed`, not `finished`. -/
theorem share_failure_fails_job_counterexample :
    finalizeReport (fun l _ g => (l, l, l ++ (g.map pyIntStr).getD ""))
        (some "a@b.c")
        (.error (.domain "Sharing spreadsheet with a@b.c failed: quota exceeded"))
        (.ok ()) (.ok 7) (.ok "https://docs.google.com/pub") "sid1" "edit1" =
      .error (.domain "Sharing spreadsheet with a@b.c failed: quota exceeded") ∧
    statusLowerOf (runAnalyticalReportJob 500 emptyJobState "job1" "TH" Option.none
        (generateFromFinalize (fun l _ g => (l, l, l ++ (g.map pyIntStr).getD ""))
          (some "a@b.c")
          (.error (.domain "Sharing spreadsheet with a@b.c failed: quota exceeded"))
          (.ok ()) (.ok 7) (.ok "https://docs.google.com/pub") "sid1" "edit1"
          "tb")).1 = "failed" ∧
    (runAnalyticalReportJob 500 emptyJobState "job1" "TH" Option.none
        (generateFromFinalize (fun l _ g => (l, l, l ++ (g.map pyIntStr).getD ""))
          (some "a@b.c")
          (.error (.domain "Sharing spreadsheet with a@b.c failed: quota exceeded"))
          (.ok ()) (.ok 7) (.ok "https://docs.google.com/pub") "sid1" "edit1"
          "tb")).2 =
      .error (.reportError
        "Sharing spreadsheet with a@b.c failed: quota exceeded") := by decide

/-! ## C7: the prompt rendezvous invariant -/

theorem promptLoop_events_mem (pid : String) (dflt : Option String)
    (polls : List (Option String)) :
    ∀ e ∈ (promptLoop pid dflt polls).2,
      e = progressEvent "Please provide a response to continue." ∨
      ∃ r, e = promptResolvedEvent pid r := by
  induction polls with
  | nil => intro e he; simp [promptLoop] at he
  | cons p t ih =>
    intro e he
    match p with
    | Option.none => exact ih e (by simpa [promptLoop] using he)
    | some msg =>
      simp only [promptLoop] at he
      cases hd : dflt with
      | some d =>
        rw [hd] at he
        simp only [List.mem_singleton] at he
        exact Or.inr ⟨_, he⟩
      | none =>
        rw [hd] at he
        by_cases hr : pyStrip msg = ""
        · rw [if_pos hr] at he
          rcases List.mem_cons.mp he with h | h
          · exact Or.inl h
          · exact ih e (by rw [hd]; exact h)
        · rw [if_neg hr] at he
          simp only [List.mem_singleton] at he
          exact Or.inr ⟨_, he⟩

theorem isPromptEvt_progress (P s : String) :
    isPromptEvt P (progressEvent s) = false := rfl

theorem isResolvedEvt_progress (P s : String) :
    isResolvedEvt P (progressEvent s) = false := rfl

theorem isPromptEvt_resolvedEvent (P pid r : String) :
    isPromptEvt P (promptResolvedEvent pid r) = false := rfl

theorem isResolvedEvt_resolvedEvent (P pid r : String) :
    isResolvedEvt P (promptResolvedEvent pid r) = (pid == P) := by
  simp [isResolvedEvt, promptResolvedEvent, eventIdIs, PyDict.ofList, PyDict.lookup]

theorem isResolvedEvt_promptEvent (P Q : String) (spec : PromptSpec) :
    isResolvedEvt P (promptEvent Q spec) = false := rfl

theorem isPromptEvt_promptEvent (P Q : String) (spec : PromptSpec) :
    isPromptEvt P (promptEvent Q spec) = (Q == P) := by
  simp only [isPromptEvt, promptEvent, promptPayload, eventIdIs]
  rw [show PyDict.ofList ([("id", PyVal.str Q)] ++
      optField "title" (spec.title.map PyVal.str) ++
      optField "message" (spec.message.map PyVal.str) ++
      optField "hint" (spec.hint.map PyVal.str) ++
      optField "options" spec.options ++
      optField "default" (spec.default.map PyVal.str)) =
    PyDict.cons "id" (PyVal.str Q) (PyDict.ofList
      (optField "title" (spec.title.map PyVal.str) ++
       optField "message" (spec.message.map PyVal.str) ++
       optField "hint" (spec.hint.map PyVal.str) ++
       optField "options" spec.options ++
       optField "default" (spec.default.map PyVal.str))) from rfl]
  simp [PyDict.lookup]

theorem promptLoop_no_prompt (pid : String) (dflt : Option String)
    (polls : List (Option String)) (P : String) :
    ∀ e ∈ (promptLoop pid dflt polls).2, isPromptEvt P e = false := by
  intro e he
  rcases promptLoop_events_mem pid dflt polls e he with h | ⟨r, h⟩
  · rw [h]; exact isPromptEvt_progress P _
  · rw [h]; exact isPromptEvt_resolvedEvent P pid r

theorem promptLoop_resolved_id (pid : String) (dflt : Option String)
    (polls : List (Option String)) (P : String) (hne : P ≠ pid) :
    ∀ e ∈ (promptLoop pid dflt polls).2, isResolvedEvt P e = false := by
  intro e he
  rcases promptLoop_events_mem pid dflt polls e he with h | ⟨r, h⟩
  · rw [h]; exact isResolvedEvt_progress P _
  · rw [h, isResolvedEvt_resolvedEvent]
    exact beq_eq_false_iff_ne.mpr (fun a => hne (Eq.symm a))

theorem promptLoop_resolved_count (pid : String) (dflt : Option String)
    (polls : List (Option String)) (P : String) :
    ((promptLoop pid dflt polls).2).countP (isResolvedEvt P) ≤ 1 := by
  induction polls with
  | nil => simp [promptLoop]
  | cons p t ih =>
    match p with
    | Option.none => simpa [promptLoop] using ih
    | some msg =>
      simp only [promptLoop]
      cases dflt with
      | some d =>
        simp only [List.countP_cons, List.countP_nil]
        by_cases hc : isResolvedEvt P
            (promptResolvedEvent pid (if pyStrip msg = "" then d else pyStrip msg)) =
            true <;>
          simp [hc]
      | none =>
        by_cases hr : pyStrip msg = ""
        · rw [if_pos hr]
          simpa [List.countP_cons, isResolvedEvt_progress] using ih
        · rw [if_neg hr]
          simp only [List.countP_cons, List.countP_nil]
          by_cases hc : isResolvedEvt P (promptResolvedEvent pid (pyStrip msg)) =
              true <;>
            simp [hc]

theorem workerLog_cons (a : WorkerAction) (t : List WorkerAction) :
    workerLog (a :: t) = actionEvents a ++ workerLog t := by
  simp [workerLog]

theorem workerLog_append (l1 l2 : List WorkerAction) :
    workerLog (l1 ++ l2) = workerLog l1 ++ workerLog l2 := by
  simp [workerLog]

theorem promptIds_cons (a : WorkerAction) (t : List WorkerAction) :
    promptIds (a :: t) = actionPromptIds a ++ promptIds t := by
  simp [promptIds]

theorem action_no_P (P : String) (a : WorkerAction) (hcl : cleanAction a = true)
    (hid : ∀ Q ∈ actionPromptIds a, Q ≠ P) :
    ∀ e ∈ actionEvents a, isPromptEvt P e = false ∧ isResolvedEvt P e = false := by
  cases a with
  | promptCall fid spec polls =>
    have hQ : resolvedPromptId fid spec ≠ P :=
      hid _ (by simp [actionPromptIds])
    intro e he
    rcases List.mem_cons.mp he with h | h
    · subst h
      exact ⟨by rw [isPromptEvt_promptEvent]; exact beq_eq_false_iff_ne.mpr hQ,
        isResolvedEvt_promptEvent P _ spec⟩
    · exact ⟨promptLoop_no_prompt _ _ _ P e h,
        promptLoop_resolved_id _ _ _ P (fun hPQ => hQ (Eq.symm hPQ)) e h⟩
  | plainEvent ev =>
    intro e he
    simp only [actionEvents, List.mem_singleton] at he
    subst he
    simp only [cleanAction, Bool.and_eq_true, bne_iff_ne, ne_eq] at hcl
    constructor
    · simp [isPromptEvt, hcl.1]
    · simp [isResolvedEvt, hcl.2]

theorem workerLog_no_P (P : String) (acts : List WorkerAction)
    (hcl : ∀ a ∈ acts, cleanAction a = true) (hP : P ∉ promptIds acts) :
    ∀ e ∈ workerLog acts, isPromptEvt P e = false ∧ isResolvedEvt P e = false := by
  induction acts with
  | nil => intro e he; simp [workerLog] at he
  | cons a t ih =>
    intro e he
    rw [workerLog_cons] at he
    rw [promptIds_cons] at hP
    simp only [List.mem_append, not_or] at hP
    rcases List.mem_append.mp he with h | h
    · refine action_no_P P a (hcl a (List.mem_cons_self _ _)) ?_ e h
      intro Q hQ hQP
      exact hP.1 (hQP ▸ hQ)
    · exact ih (fun b hb => hcl b (List.mem_cons_of_mem _ hb)) hP.2 e h

theorem promptIds_decomp (acts : List WorkerAction) (P : String)
    (hmem : P ∈ promptIds acts) (hnd : (promptIds acts).Nodup) :
    ∃ pre fid spec polls post,
      acts = pre ++ WorkerAction.promptCall fid spec polls :: post ∧
      resolvedPromptId fid spec = P ∧
      P ∉ promptIds pre ∧ P ∉ promptIds post := by
  induction acts with
  | nil => simp [promptIds] at hmem
  | cons a t ih =>
    rw [promptIds_cons] at hmem hnd
    cases a with
    | plainEvent ev =>
      simp only [actionPromptIds, List.nil_append] at hmem hnd
      obtain ⟨pre, fid, spec, polls, post, hdec, hid, hpre, hpost⟩ := ih hmem hnd
      exact ⟨WorkerAction.plainEvent ev :: pre, fid, spec, polls, post,
        by rw [hdec]; rfl, hid,
        by rw [promptIds_cons]; simpa [actionPromptIds] using hpre, hpost⟩
    | promptCall fid spec polls =>
      simp only [actionPromptIds, List.cons_append, List.nil_append] at hmem hnd
      rw [List.nodup_cons] at hnd
      rcases List.mem_cons.mp hmem with hP | hP
      · refine ⟨[], fid, spec, polls, t, rfl, hP.symm, by simp [promptIds], ?_⟩
        rw [← hP] at hnd
        exact hnd.1
      · obtain ⟨pre, fid2, spec2, polls2, post, hdec, hid, hpre, hpost⟩ :=
          ih hP hnd.2
        refine ⟨WorkerAction.promptCall fid spec polls :: pre, fid2, spec2, polls2,
          post, by rw [hdec]; rfl, hid, ?_, hpost⟩
        rw [promptIds_cons]
        simp only [actionPromptIds, List.cons_append, List.nil_append,
          List.mem_cons, not_or]
        constructor
        · intro hPQ
          exact hnd.1 (hPQ ▸ hP)
        · exact hpre

theorem before_after_of_decomp {α : Type} (p q : α → Bool) (A B : List α) (x : α)
    (hA : ∀ e ∈ A, p e = false ∧ q e = false)
    (hxq : q x = false)
    (hB : ∀ e ∈ B, p e = false) :
    ∀ i j (hi : i < (A ++ x :: B).length) (hj : j < (A ++ x :: B).length),
      p ((A ++ x :: B).get ⟨i, hi⟩) = true →
      q ((A ++ x :: B).get ⟨j, hj⟩) = true → i < j := by
  intro i j hi hj hp hq
  rw [List.get_eq_getElem] at hp hq
  have hlen : (A ++ x :: B).length = A.length + B.length + 1 := by
    simp
    omega
  have hiA : i = A.length := by
    rcases Nat.lt_trichotomy i A.length with h | h | h
    · exfalso
      rw [List.getElem_append_left h] at hp
      exact absurd hp (by rw [(hA _ (List.getElem_mem h)).1]; decide)
    · exact h
    · exfalso
      rw [List.getElem_append_right (by omega : A.length ≤ i)] at hp
      obtain ⟨m, hm⟩ : ∃ m, i - A.length = m + 1 := ⟨i - A.length - 1, by omega⟩
      simp only [hm, List.getElem_cons_succ] at hp
      exact absurd hp (by rw [hB _ (List.getElem_mem _)]; decide)
  have hjA : A.length < j := by
    rcases Nat.lt_trichotomy j A.length with h | h | h
    · exfalso
      rw [List.getElem_append_left h] at hq
      exact absurd hq (by rw [(hA _ (List.getElem_mem h)).2]; decide)
    · exfalso
      rw [List.getElem_append_right (by omega : A.length ≤ j)] at hq
      simp only [h, Nat.sub_self, List.getElem_cons_zero] at hq
      exact absurd hq (by rw [hxq]; decide)
    · exact h
  omega

/-- C7: in the job log produced by any sequence of worker actions — prompt
calls with fresh (pairwise distinct) prompt ids interleaved with any other
events (which are never of type `prompt`/`prompt_resolved`) — and in any
head-trimmed suffix of it (`drop d` covers the store's `LTRIM`
ring-buffer), for every id `P` there is at most one `prompt_resolved` event
with id `P`, and every such `prompt_resolved` event appears strictly after
the `prompt` event with id `P` in log order. -/
theorem prompt_rendezvous_invariant (acts : List WorkerAction) (d : Nat) (P : String)
    (hnd : (promptIds acts).Nodup) (hcl : ∀ a ∈ acts, cleanAction a = true) :
    ((workerLog acts).drop d).countP (isResolvedEvt P) ≤ 1 ∧
    ∀ i j (hi : i < ((workerLog acts).drop d).length)
      (hj : j < ((workerLog acts).drop d).length),
      isPromptEvt P (((workerLog acts).drop d).get ⟨i, hi⟩) = true →
      isResolvedEvt P (((workerLog acts).drop d).get ⟨j, hj⟩) = true → i < j := by
  by_cases hmem : P ∈ promptIds acts
  · obtain ⟨pre, fid, spec, polls, post, hdec, hid, hpre, hpost⟩ :=
      promptIds_decomp acts P hmem hnd
    have hclpre : ∀ a ∈ pre, cleanAction a = true := fun a ha =>
      hcl a (by rw [hdec]; exact List.mem_append_left _ ha)
    have hclpost : ∀ a ∈ post, cleanAction a = true := fun a ha =>
      hcl a (by rw [hdec]; exact List.mem_append_right _ (List.mem_cons_of_mem _ ha))
    have hApre := workerLog_no_P P pre hclpre hpre
    have hApost := workerLog_no_P P post hclpost hpost
    have hlg : workerLog acts =
        workerLog pre ++ promptEvent P spec ::
          ((promptLoop P spec.default polls).2 ++ workerLog post) := by
      rw [hdec, workerLog_append, workerLog_cons]
      simp only [actionEvents, promptUser, hid]
      rfl
    have hxq : isResolvedEvt P (promptEvent P spec) = false :=
      isResolvedEvt_promptEvent P P spec
    have hB : ∀ e ∈ (promptLoop P spec.default polls).2 ++ workerLog post,
        isPromptEvt P e = false := by
      intro e he
      rcases List.mem_append.mp he with h | h
      · exact promptLoop_no_prompt _ _ _ P e h
      · exact (hApost e h).1
    constructor
    · calc ((workerLog acts).drop d).countP (isResolvedEvt P) ≤
          (workerLog acts).countP (isResolvedEvt P) :=
            (List.drop_sublist d _).countP_le _
        _ ≤ 1 := by
            rw [hlg, List.countP_append, List.countP_cons, List.countP_append]
            have c1 : (workerLog pre).countP (isResolvedEvt P) = 0 :=
              List.countP_eq_zero.mpr (fun e he => by rw [(hApre e he).2]; decide)
            have c2 : (workerLog post).countP (isResolvedEvt P) = 0 :=
              List.countP_eq_zero.mpr (fun e he => by rw [(hApost e he).2]; decide)
            have c3 := promptLoop_resolved_count P spec.default polls P
            rw [c1, c2, hxq]
            simpa using c3
    · intro i j hi hj hp hq
      have hord := before_after_of_decomp (isPromptEvt P) (isResolvedEvt P)
        (workerLog pre)
        ((promptLoop P spec.default polls).2 ++ workerLog post)
        (promptEvent P spec) hApre hxq hB
      rw [List.get_eq_getElem] at hp hq
      rw [List.getElem_drop] at hp hq
      have hi2 : d + i < (workerLog acts).length := by
        have := List.length_drop d (workerLog acts)
        omega
      have hj2 : d + j < (workerLog acts).length := by
        have := List.length_drop d (workerLog acts)
        omega
      have hil : d + i < (workerLog pre ++ promptEvent P spec ::
          ((promptLoop P spec.default polls).2 ++ workerLog post)).length := by
        rw [← hlg]
        exact hi2
      have hjl : d + j < (workerLog pre ++ promptEvent P spec ::
          ((promptLoop P spec.default polls).2 ++ workerLog post)).length := by
        rw [← hlg]
        exact hj2
      have := hord (d + i) (d + j) hil hjl
        (by rw [List.get_eq_getElem]
            have heq : (workerLog pre ++ promptEvent P spec ::
                ((promptLoop P spec.default polls).2 ++ workerLog post))[d + i] =
                (workerLog acts)[d + i] := by
              congr 1
              exact hlg.symm
            rw [heq]
            exact hp)
        (by rw [List.get_eq_getElem]
            have heq : (workerLog pre ++ promptEvent P spec ::
                ((promptLoop P spec.default polls).2 ++ workerLog post))[d + j] =
                (workerLog acts)[d + j] := by
              congr 1
              exact hlg.symm
            rw [heq]
            exact hq)
      omega
  · have hno := workerLog_no_P P acts hcl hmem
    constructor
    · have : ((workerLog acts).drop d).countP (isResolvedEvt P) = 0 :=
        List.countP_eq_zero.mpr (fun e he => by
          rw [(hno e ((List.drop_sublist d _).mem he)).2]; decide)
      omega
    · intro i j hi hj hp hq
      exfalso
      have hmem2 : ((workerLog acts).drop d).get ⟨i, hi⟩ ∈ workerLog acts :=
        (List.drop_sublist d _).mem (List.get_mem _ _ _)
      rw [(hno _ hmem2).1] at hp
      exact absurd hp (by decide)

/-- Witness for C7 on a concrete worker trace: a progress event, a prompt
answered immediately, and a second prompt that times out once before being
answered. -/
theorem prompt_rendezvous_invariant_witness :
    ((promptIds [WorkerAction.plainEvent (progressEvent "queued"),
        WorkerAction.promptCall "u1" {} [some "yes"],
        WorkerAction.promptCall "u2" {} [Option.none, some "5"]]).Nodup ∧
      (∀ a ∈ [WorkerAction.plainEvent (progressEvent "queued"),
        WorkerAction.promptCall "u1" {} [some "yes"],
        WorkerAction.promptCall "u2" {} [Option.none, some "5"]],
        cleanAction a = true)) ∧
    (((workerLog [WorkerAction.plainEvent (progressEvent "queued"),
        WorkerAction.promptCall "u1" {} [some "yes"],
        WorkerAction.promptCall "u2" {} [Option.none, some "5"]]).drop 0).countP
      (isResolvedEvt "u1") ≤ 1 ∧
    ∀ i j (hi : i < ((workerLog [WorkerAction.plainEvent (progressEvent "queued"),
        WorkerAction.promptCall "u1" {} [some "yes"],
        WorkerAction.promptCall "u2" {} [Option.none, some "5"]]).drop 0).length)
      (hj : j < ((workerLog [WorkerAction.plainEvent (progressEvent "queued"),
        WorkerAction.promptCall "u1" {} [some "yes"],
        WorkerAction.promptCall "u2" {} [Option.none, some "5"]]).drop 0).length),
      isPromptEvt "u1"
        (((workerLog [WorkerAction.plainEvent (progressEvent "queued"),
          WorkerAction.promptCall "u1" {} [some "yes"],
          WorkerAction.promptCall "u2" {} [Option.none, some "5"]]).drop 0).get
          ⟨i, hi⟩) = true →
      isResolvedEvt "u1"
        (((workerLog [WorkerAction.plainEvent (progressEvent "queued"),
          WorkerAction.promptCall "u1" {} [some "yes"],
          WorkerAction.promptCall "u2" {} [Option.none, some "5"]]).drop 0).get
          ⟨j, hj⟩) = true → i < j) :=
  ⟨⟨by decide, by decide⟩,
   prompt_rendezvous_invariant
     [WorkerAction.plainEvent (progressEvent "queued"),
      WorkerAction.promptCall "u1" {} [some "yes"],
      WorkerAction.promptCall "u2" {} [Option.none, some "5"]] 0 "u1"
     (by decide) (by decide)⟩

/-! ## C10: the meta encode/decode round trip

The decisive facts about the JSON model: decimal integer strings parse as
integers (never containers), and `jsonLoads` inverts `jsonDumps`. -/

theorem natDigitChar_toNat (d : Nat) (h : d < 10) : (natDigitChar d).toNat = 48 + d := by
  interval_cases d <;> decide

theorem isDigitChar_natDigitChar (d : Nat) (h : d < 10) :
    isDigitChar (natDigitChar d) = true := by
  interval_cases d <;> decide

theorem natDigitsAux_ne_nil (fuel n : Nat) : natDigitsAux (fuel + 1) n ≠ [] := by
  unfold natDigitsAux
  by_cases hn : n < 10
  · simp [hn]
  · simp [hn]

theorem natDigitsAux_digits (fuel : Nat) :
    ∀ n c, c ∈ natDigitsAux fuel n → isDigitChar c = true := by
  induction fuel with
  | zero => intro n c h; simp [natDigitsAux] at h
  | succ f ih =>
    intro n c h
    rw [natDigitsAux] at h
    by_cases hn : n < 10
    · rw [if_pos hn] at h
      simp only [List.mem_singleton] at h
      subst h
      exact isDigitChar_natDigitChar n hn
    · rw [if_neg hn] at h
      rcases List.mem_append.mp h with h | h
      · exact ih _ _ h
      · simp only [List.mem_singleton] at h
        subst h
        exact isDigitChar_natDigitChar _ (Nat.mod_lt _ (by omega))

theorem not_ws_of_digit (c : Char) (h : isDigitChar c = true) : isWsChar c = false := by
  have h1 : c ≠ ' ' := fun he => absurd (he ▸ h) (by decide)
  have h2 : c ≠ '\n' := fun he => absurd (he ▸ h) (by decide)
  have h3 : c ≠ '\t' := fun he => absurd (he ▸ h) (by decide)
  have h4 : c ≠ '\r' := fun he => absurd (he ▸ h) (by decide)
  simp [isWsChar, h1, h2, h3, h4]

theorem skipWs_cons_of_not_ws (c : Char) (cs : List Char) (h : isWsChar c = false) :
    skipWs (c :: cs) = c :: cs := by
  simp [skipWs, h]

theorem parseValue_cons_ws (fuel : Nat) (c : Char) (cs : List Char)
    (h : isWsChar c = true) : parseValue fuel (c :: cs) = parseValue fuel cs := by
  cases fuel with
  | zero => rfl
  | succ f => simp only [parseValue, skipWs, h, if_true, ite_true]

theorem parseElems_cons_ws (fuel : Nat) (c : Char) (cs : List Char)
    (h : isWsChar c = true) : parseElems fuel (c :: cs) = parseElems fuel cs := by
  cases fuel with
  | zero => rfl
  | succ f => simp only [parseElems, parseValue_cons_ws f c cs h]

theorem takeDigits_append (ds rest : List Char)
    (hds : ∀ c ∈ ds, isDigitChar c = true)
    (hrest : ∀ c cs, rest = c :: cs → isDigitChar c = false) :
    takeDigits (ds ++ rest) = (ds, rest) := by
  induction ds with
  | nil =>
    cases rest with
    | nil => rfl
    | cons c cs => simp [takeDigits, hrest c cs rfl]
  | cons c t ih =>
    have hc := hds c (List.mem_cons_self _ _)
    have ht := ih (fun d hd => hds d (List.mem_cons_of_mem _ hd))
    simp [takeDigits, hc, ht]

theorem restSafe_not_digit (rest : List Char) (h : restSafe rest) :
    ∀ c cs, rest = c :: cs → isDigitChar c = false := by
  intro c cs he
  subst he
  rcases h with h | h | h <;> subst h <;> decide

theorem digitsToNat_append_singleton (a : List Char) (c : Char) :
    digitsToNat (a ++ [c]) = digitsToNat a * 10 + (c.toNat - 48) := by
  simp [digitsToNat, List.foldl_append]

theorem digitsToNat_natDigitsAux (fuel : Nat) :
    ∀ n, n < 10 ^ fuel → digitsToNat (natDigitsAux fuel n) = n := by
  induction fuel with
  | zero =>
    intro n hn
    simp only [pow_zero, Nat.lt_one_iff] at hn
    subst hn
    rfl
  | succ f ih =>
    intro n hn
    rw [natDigitsAux]
    by_cases h10 : n < 10
    · rw [if_pos h10]
      simp [digitsToNat, natDigitChar_toNat n h10]
    · rw [if_neg h10, digitsToNat_append_singleton]
      have hdiv : n / 10 < 10 ^ f := by
        rw [Nat.div_lt_iff_lt_mul (by omega)]
        calc n < 10 ^ (f + 1) := hn
          _ = 10 ^ f * 10 := by ring
      rw [ih (n / 10) hdiv, natDigitChar_toNat (n % 10) (Nat.mod_lt _ (by omega))]
      omega

theorem digitsToNat_pyNatStr (n : Nat) : digitsToNat ((pyNatStr n).data) = n := by
  have hlt : n < 10 ^ (n + 1) := by
    calc n < 10 ^ n := Nat.lt_pow_self (by omega) n
      _ ≤ 10 ^ (n + 1) := Nat.pow_le_pow_right (by omega) (by omega)
  exact digitsToNat_natDigitsAux (n + 1) n hlt

theorem pyNatStr_head (n : Nat) :
    ∃ c cs, (pyNatStr n).data = c :: cs ∧ isDigitChar c = true := by
  have hne := natDigitsAux_ne_nil n n
  cases hd : natDigitsAux (n + 1) n with
  | nil => exact absurd hd hne
  | cons c cs =>
    refine ⟨c, cs, hd, ?_⟩
    exact natDigitsAux_digits (n + 1) n c (by rw [hd]; exact List.mem_cons_self _ _)

/-- A value parsed from input whose first significant character is a digit
or a minus sign can only be an integer — never a dict or a list. -/
theorem parseValue_num (fuel : Nat) (c : Char) (rest : List Char)
    (hc : isDigitChar c = true ∨ c = '-') :
    ∀ v r, parseValue fuel (c :: rest) = some (v, r) → ∃ m, v = PyVal.int m := by
  cases fuel with
  | zero => intro v r h; simp [parseValue] at h
  | succ f =>
    intro v r h
    rcases hc with hc | hc
    · have hnws := not_ws_of_digit c hc
      have hn : ¬(c = 'n') := fun he => absurd (he ▸ hc) (by decide)
      have htt : ¬(c = 't') := fun he => absurd (he ▸ hc) (by decide)
      have hf : ¬(c = 'f') := fun he => absurd (he ▸ hc) (by decide)
      have hq : ¬(c = '"') := fun he => absurd (he ▸ hc) (by decide)
      have hm : ¬(c = '-') := fun he => absurd (he ▸ hc) (by decide)
      simp only [parseValue, skipWs_cons_of_not_ws c rest hnws] at h
      rw [if_neg hn, if_neg htt, if_neg hf, if_neg hq, if_neg hm, if_pos hc] at h
      simp only [Option.some.injEq, Prod.mk.injEq] at h
      exact ⟨_, h.1.symm⟩
    · subst hc
      simp only [parseValue, skipWs_cons_of_not_ws '-' rest (by decide)] at h
      rw [if_pos trivial] at h
      rcases htd : takeDigits rest with ⟨ds, r2⟩
      rw [htd] at h
      cases ds with
      | nil => simp at h
      | cons d t =>
        simp at h
        exact ⟨_, h.1.symm⟩

theorem decode_of_not_container (s : String) (hne : s ≠ "")
    (h : ∀ p, jsonLoads s = some p → p.isContainer = false) :
    decodeMetaValue s = .str s := by
  unfold decodeMetaValue
  rw [if_neg hne]
  cases hj : jsonLoads s with
  | none => rfl
  | some p => simp [h p hj]

theorem pyIntStr_ne_empty (n : Int) : pyIntStr n ≠ "" := by
  unfold pyIntStr
  obtain ⟨c, cs, hd, _⟩ := pyNatStr_head n.natAbs
  by_cases hn : n < 0
  · rw [if_pos hn]
    intro he
    have h2 : ("-" ++ pyNatStr n.natAbs).data = [] := by rw [he]
    rw [String.data_append] at h2
    simp at h2
  · rw [if_neg hn]
    intro he
    rw [he] at hd
    exact absurd (show ([] : List Char) = c :: cs from hd) (by simp)

/-- C10 key scalar fact: the decimal rendering of an integer decodes back
to itself as a *string* (the JSON probe parses it as a number, which is not
a dict or list, so `_decode_meta_value` falls through to the raw string). -/
theorem decodeMetaValue_int (n : Int) :
    decodeMetaValue (pyIntStr n) = .str (pyIntStr n) := by
  apply decode_of_not_container _ (pyIntStr_ne_empty n)
  intro p hp
  unfold jsonLoads at hp
  rcases hparse : parseValue ((pyIntStr n).length + 1) (pyIntStr n).data with _ | ⟨v, r⟩
  · rw [hparse] at hp
    simp at hp
  · rw [hparse] at hp
    obtain ⟨c, cs, hd, hdig⟩ := pyNatStr_head n.natAbs
    have hnum : ∃ m, v = PyVal.int m := by
      unfold pyIntStr at hparse
      by_cases hn : n < 0
      · rw [if_pos hn] at hparse
        rw [show ("-" ++ pyNatStr n.natAbs).data = '-' :: (pyNatStr n.natAbs).data
          from by rw [String.data_append]; rfl] at hparse
        exact parseValue_num _ '-' _ (Or.inr rfl) v r hparse
      · rw [if_neg hn, hd] at hparse
        exact parseValue_num _ c cs (Or.inl hdig) v r hparse
    obtain ⟨m, hm⟩ := hnum
    have hpv : p = v := by
      cases hskip : (skipWs r).isEmpty with
      | true =>
        simp only [hskip, if_true, ite_true, Option.some.injEq] at hp
        exact hp.symm
      | false => simp [hskip] at hp
    rw [hpv, hm]
    rfl

theorem parseStringBody_escape (l : List Char) (rest : List Char) :
    parseStringBody (escapeChars l ++ '"' :: rest) = some (l, rest) := by
  induction l with
  | nil =>
    show parseStringBody (([] : List Char) ++ '"' :: rest) = _
    rw [List.nil_append]
    unfold parseStringBody
    rw [if_pos (show ('"' : Char) = '"' from rfl)]
  | cons c t ih =>
    rw [show escapeChars (c :: t) = (escapeChar c).data ++ escapeChars t from rfl,
      List.append_assoc]
    by_cases h1 : c = '"'
    · subst h1
      show parseStringBody ('\\' :: '"' :: (escapeChars t ++ '"' :: rest)) = _
      unfold parseStringBody
      simp [ih]
    · by_cases h2 : c = '\\'
      · subst h2
        show parseStringBody ('\\' :: '\\' :: (escapeChars t ++ '"' :: rest)) = _
        unfold parseStringBody
        simp [ih]
      · by_cases h3 : c = '\n'
        · subst h3
          show parseStringBody ('\\' :: 'n' :: (escapeChars t ++ '"' :: rest)) = _
          unfold parseStringBody
          simp [ih]
        · by_cases h4 : c = '\t'
          · subst h4
            show parseStringBody ('\\' :: 't' :: (escapeChars t ++ '"' :: rest)) = _
            unfold parseStringBody
            simp [ih]
          · by_cases h5 : c = '\r'
            · subst h5
              show parseStringBody ('\\' :: 'r' :: (escapeChars t ++ '"' :: rest)) = _
              unfold parseStringBody
              simp [ih]
            · have he : escapeChar c = String.singleton c := by
                unfold escapeChar
                rw [if_neg h1, if_neg h2, if_neg h3, if_neg h4, if_neg h5]
              rw [he]
              show parseStringBody (c :: (escapeChars t ++ '"' :: rest)) = _
              unfold parseStringBody
              rw [if_neg h1, if_neg h2, ih]

theorem jsonDumps_head (v : PyVal) :
    ∃ c cs, (jsonDumps v).data = c :: cs ∧ isWsChar c = false ∧ ¬(c = ']') := by
  cases v with
  | none => exact ⟨'n', _, rfl, by decide, by decide⟩
  | int n =>
    rw [show jsonDumps (.int n) = pyIntStr n from rfl]
    unfold pyIntStr
    obtain ⟨c, cs, hd, hdig⟩ := pyNatStr_head n.natAbs
    by_cases hn : n < 0
    · rw [if_pos hn]
      exact ⟨'-', _, by rw [String.data_append]; rfl, by decide, by decide⟩
    · rw [if_neg hn]
      exact ⟨c, cs, hd, not_ws_of_digit c hdig,
        fun he => absurd (he ▸ hdig) (by decide)⟩
  | str s => exact ⟨'"', _, rfl, by decide, by decide⟩
  | bool b =>
    cases b with
    | true => exact ⟨'t', _, rfl, by decide, by decide⟩
    | false => exact ⟨'f', _, rfl, by decide, by decide⟩
  | list xs =>
    refine ⟨'[', (dumpsElems xs).data ++ [']'], ?_, by decide, by decide⟩
    rw [show jsonDumps (.list xs) = "[" ++ dumpsElems xs ++ "]" from rfl,
      String.data_append, String.data_append]
    rfl
  | dict kvs =>
    refine ⟨lbraceChar, (dumpsPairs kvs).data ++ [rbraceChar], ?_, by decide, by decide⟩
    rw [show jsonDumps (.dict kvs) = lbraceStr ++ dumpsPairs kvs ++ rbraceStr from rfl,
      String.data_append, String.data_append]
    rfl

theorem parsePairs_cons_ws (fuel : Nat) (c : Char) (cs : List Char)
    (h : isWsChar c = true) : parsePairs fuel (c :: cs) = parsePairs fuel cs := by
  cases fuel with
  | zero => rfl
  | succ f => simp only [parsePairs, skipWs, h, if_true, ite_true]

theorem dumpsElems_data_head (v : PyVal) (tl : PyList) :
    ∃ M, (dumpsElems (.cons v tl)).data = (jsonDumps v).data ++ M := by
  cases tl with
  | nil => exact ⟨[], by simp [dumpsElems]⟩
  | cons w t2 =>
    refine ⟨(", " ++ dumpsElems (.cons w t2)).data, ?_⟩
    rw [show dumpsElems (.cons v (.cons w t2)) =
      jsonDumps v ++ ", " ++ dumpsElems (.cons w t2) from rfl]
    rw [show jsonDumps v ++ ", " ++ dumpsElems (.cons w t2) =
      jsonDumps v ++ (", " ++ dumpsElems (.cons w t2)) from by
        rw [String.append_assoc]]
    exact String.data_append _ _

theorem dumpsPairs_data_head (k : String) (v : PyVal) (tl : PyDict) :
    ∃ M, (dumpsPairs (.cons k v tl)).data = '"' :: M := by
  cases tl with
  | nil =>
    refine ⟨(escapeChars k.data ++ ['"']) ++ (": " ++ jsonDumps v).data, ?_⟩
    rw [show dumpsPairs (.cons k v .nil) = quoteString k ++ (": " ++ jsonDumps v)
      from by rw [show dumpsPairs (.cons k v .nil) =
        quoteString k ++ ": " ++ jsonDumps v from rfl, String.append_assoc]]
    rw [String.data_append]
    rfl
  | cons k2 v2 t2 =>
    refine ⟨(escapeChars k.data ++ ['"']) ++
      (": " ++ jsonDumps v ++ ", " ++ dumpsPairs (.cons k2 v2 t2)).data, ?_⟩
    rw [show dumpsPairs (.cons k v (.cons k2 v2 t2)) =
      quoteString k ++ (": " ++ jsonDumps v ++ ", " ++ dumpsPairs (.cons k2 v2 t2))
      from by
        rw [show dumpsPairs (.cons k v (.cons k2 v2 t2)) =
          quoteString k ++ ": " ++ jsonDumps v ++ ", " ++ dumpsPairs (.cons k2 v2 t2)
          from rfl]
        rw [String.append_assoc (quoteString k), String.append_assoc (quoteString k),
          String.append_assoc (quoteString k)]]
    rw [String.data_append]
    rfl

mutual

theorem parse_print_val (v : PyVal) :
    ∀ (f : Nat) (rest : List Char), (jsonDumps v).data.length + 1 ≤ f →
      restSafe rest →
      parseValue f ((jsonDumps v).data ++ rest) = some (v, rest) := by
  intro f rest hf hrest
  obtain ⟨f', rfl⟩ : ∃ g, f = g + 1 := ⟨f - 1, by omega⟩
  cases v with
  | none =>
    rw [show (jsonDumps PyVal.none).data = ['n', 'u', 'l', 'l'] from rfl]
    simp [parseValue, skipWs, isWsChar, expectChars]
  | bool b =>
    cases b with
    | true =>
      rw [show (jsonDumps (PyVal.bool true)).data = ['t', 'r', 'u', 'e'] from rfl]
      simp [parseValue, skipWs, isWsChar, expectChars]
    | false =>
      rw [show (jsonDumps (PyVal.bool false)).data = ['f', 'a', 'l', 's', 'e'] from rfl]
      simp [parseValue, skipWs, isWsChar, expectChars]
  | int n =>
    by_cases hn : n < 0
    · have hD : (jsonDumps (PyVal.int n)).data = '-' :: (pyNatStr n.natAbs).data := by
        rw [show jsonDumps (PyVal.int n) = pyIntStr n from rfl]
        unfold pyIntStr
        rw [if_pos hn, String.data_append]
        rfl
      obtain ⟨c, cs, hd, hdig⟩ := pyNatStr_head n.natAbs
      have hdigits : ∀ d ∈ (pyNatStr n.natAbs).data, isDigitChar d = true :=
        fun d hdd => natDigitsAux_digits (n.natAbs + 1) n.natAbs d hdd
      rw [hD, List.cons_append]
      simp only [parseValue, skipWs_cons_of_not_ws '-' _ (by decide)]
      rw [if_neg (show ¬('-' = 'n') by decide), if_neg (show ¬('-' = 't') by decide),
        if_neg (show ¬('-' = 'f') by decide), if_neg (show ¬('-' = '"') by decide),
        if_pos trivial]
      rw [takeDigits_append _ _ hdigits (restSafe_not_digit rest hrest), hd]
      have hval : digitsToNat (c :: cs) = n.natAbs := by
        rw [← hd]
        exact digitsToNat_pyNatStr n.natAbs
      have hcast : -|n| = n := by rw [abs_of_neg hn, neg_neg]
      simp [hval, hcast]
    · obtain ⟨c, cs, hd, hdig⟩ := pyNatStr_head n.natAbs
      have hD : (jsonDumps (PyVal.int n)).data = c :: cs := by
        rw [show jsonDumps (PyVal.int n) = pyIntStr n from rfl]
        unfold pyIntStr
        rw [if_neg hn]
        exact hd
      have hdigits : ∀ d ∈ (pyNatStr n.natAbs).data, isDigitChar d = true :=
        fun d hdd => natDigitsAux_digits (n.natAbs + 1) n.natAbs d hdd
      have hn2 : ¬(c = 'n') := fun he => absurd (he ▸ hdig) (by decide)
      have ht2 : ¬(c = 't') := fun he => absurd (he ▸ hdig) (by decide)
      have hf2 : ¬(c = 'f') := fun he => absurd (he ▸ hdig) (by decide)
      have hq2 : ¬(c = '"') := fun he => absurd (he ▸ hdig) (by decide)
      have hm2 : ¬(c = '-') := fun he => absurd (he ▸ hdig) (by decide)
      rw [hD, List.cons_append]
      simp only [parseValue,
        skipWs_cons_of_not_ws c _ (not_ws_of_digit c hdig)]
      rw [if_neg hn2, if_neg ht2, if_neg hf2, if_neg hq2, if_neg hm2, if_pos hdig]
      rw [show (c :: (cs ++ rest)) = (c :: cs) ++ rest from rfl]
      rw [takeDigits_append _ _ (fun d hdd => hdigits d (hd ▸ hdd))
        (restSafe_not_digit rest hrest)]
      have hval : digitsToNat (c :: cs) = n.natAbs := by
        rw [← hd]
        exact digitsToNat_pyNatStr n.natAbs
      have hcast : (n.natAbs : Int) = n := by omega
      simp [hval, hcast]
  | str s =>
    have hD : (jsonDumps (PyVal.str s)).data =
        '"' :: (escapeChars s.data ++ ['"']) := by
      rw [show jsonDumps (PyVal.str s) = "\"" ++ escapeString s ++ "\"" from rfl,
        String.data_append, String.data_append]
      rfl
    rw [hD, List.cons_append, List.append_assoc, List.singleton_append]
    have hsb := parseStringBody_escape s.data rest
    simp [parseValue, skipWs, isWsChar, hsb]
  | list xs =>
    have hD : (jsonDumps (PyVal.list xs)).data =
        '[' :: ((dumpsElems xs).data ++ [']']) := by
      rw [show jsonDumps (PyVal.list xs) = "[" ++ dumpsElems xs ++ "]" from rfl,
        String.data_append, String.data_append]
      rfl
    have hlen : (jsonDumps (PyVal.list xs)).data.length =
        (dumpsElems xs).data.length + 2 := by
      rw [hD]
      simp only [List.length_cons, List.length_append, List.length_nil]
    rw [hD, List.cons_append, List.append_assoc, List.singleton_append]
    cases xs with
    | nil =>
      simp [parseValue, dumpsElems, skipWs, isWsChar, isDigitChar,
        show ("" : String).data = ([] : List Char) from rfl]
    | cons v tl =>
      obtain ⟨M, hM⟩ := dumpsElems_data_head v tl
      obtain ⟨c1, cs1, hd1, hw1, hne1⟩ := jsonDumps_head v
      have hed : (dumpsElems (PyList.cons v tl)).data = c1 :: (cs1 ++ M) := by
        rw [hM, hd1, List.cons_append]
      have hsw : skipWs ((dumpsElems (PyList.cons v tl)).data ++ ']' :: rest) =
          c1 :: ((cs1 ++ M) ++ ']' :: rest) := by
        rw [hed, List.cons_append]
        exact skipWs_cons_of_not_ws c1 _ hw1
      have hrec := parse_print_elems (PyList.cons v tl)
        (fun h => PyList.noConfusion h) f' rest (by omega)
      simp [parseValue, skipWs, isWsChar, isDigitChar, hsw, hne1, hrec]
  | dict kvs =>
    have hD : (jsonDumps (PyVal.dict kvs)).data =
        lbraceChar :: ((dumpsPairs kvs).data ++ [rbraceChar]) := by
      rw [show jsonDumps (PyVal.dict kvs) = lbraceStr ++ dumpsPairs kvs ++ rbraceStr
        from rfl, String.data_append, String.data_append]
      rfl
    have hlen : (jsonDumps (PyVal.dict kvs)).data.length =
        (dumpsPairs kvs).data.length + 2 := by
      rw [hD]
      simp only [List.length_cons, List.length_append, List.length_nil]
    rw [hD, List.cons_append, List.append_assoc, List.singleton_append]
    simp only [parseValue, skipWs_cons_of_not_ws lbraceChar _ (by decide)]
    rw [if_neg (show ¬(lbraceChar = 'n') by decide),
      if_neg (show ¬(lbraceChar = 't') by decide),
      if_neg (show ¬(lbraceChar = 'f') by decide),
      if_neg (show ¬(lbraceChar = '"') by decide),
      if_neg (show ¬(lbraceChar = '-') by decide),
      if_neg (by decide : ¬(isDigitChar lbraceChar = true)),
      if_neg (show ¬(lbraceChar = '[') by decide),
      if_pos trivial]
    cases kvs with
    | nil =>
      simp [dumpsPairs, skipWs,
        show ("" : String).data = ([] : List Char) from rfl,
        show isWsChar rbraceChar = false from by decide]
    | cons k v tl =>
      obtain ⟨M, hM⟩ := dumpsPairs_data_head k v tl
      have hsw : skipWs ((dumpsPairs (PyDict.cons k v tl)).data ++
          rbraceChar :: rest) = '"' :: (M ++ rbraceChar :: rest) := by
        rw [hM, List.cons_append]
        exact skipWs_cons_of_not_ws '"' _ (by decide)
      have hrec := parse_print_pairs (PyDict.cons k v tl)
        (fun h => PyDict.noConfusion h) f' rest (by omega)
      simp [hsw, hrec, show ¬(('"' : Char) = rbraceChar) from by decide]

theorem parse_print_elems (xs : PyList) :
    xs ≠ .nil → ∀ (f : Nat) (rest : List Char),
      (dumpsElems xs).data.length + 2 ≤ f →
      parseElems f ((dumpsElems xs).data ++ ']' :: rest) = some (xs, rest) := by
  intro hne f rest hf
  obtain ⟨f', rfl⟩ : ∃ g, f = g + 1 := ⟨f - 1, by omega⟩
  cases xs with
  | nil => exact absurd rfl hne
  | cons v tl =>
    cases tl with
    | nil =>
      have hlen : (dumpsElems (PyList.cons v PyList.nil)).data.length =
          (jsonDumps v).data.length := rfl
      rw [show (dumpsElems (PyList.cons v .nil)).data = (jsonDumps v).data from rfl]
      have hv := parse_print_val v f' (']' :: rest) (by omega) (Or.inr (Or.inl rfl))
      simp [parseElems, hv, skipWs, isWsChar]
    | cons w t2 =>
      have hed : (dumpsElems (PyList.cons v (PyList.cons w t2))).data =
          (jsonDumps v).data ++ (',' :: ' ' :: (dumpsElems (PyList.cons w t2)).data) := by
        rw [show dumpsElems (.cons v (.cons w t2)) =
          jsonDumps v ++ (", " ++ dumpsElems (.cons w t2)) from by
            rw [show dumpsElems (.cons v (.cons w t2)) =
              jsonDumps v ++ ", " ++ dumpsElems (.cons w t2) from rfl,
              String.append_assoc]]
        rw [String.data_append]
        rw [show (", " ++ dumpsElems (.cons w t2)).data =
          ',' :: ' ' :: (dumpsElems (.cons w t2)).data from by
            rw [String.data_append]; rfl]
      have hlen : (dumpsElems (PyList.cons v (PyList.cons w t2))).data.length =
          (jsonDumps v).data.length + 2 +
            (dumpsElems (PyList.cons w t2)).data.length := by
        rw [hed]
        simp only [List.length_append, List.length_cons]
        omega
      rw [hed, List.append_assoc, List.cons_append, List.cons_append]
      have hv := parse_print_val v f'
        (',' :: (' ' :: ((dumpsElems (PyList.cons w t2)).data ++ ']' :: rest)))
        (by omega) (Or.inl rfl)
      have hrec := parse_print_elems (PyList.cons w t2)
        (fun h => PyList.noConfusion h) f' rest (by omega)
      simp [parseElems, hv, hrec, skipWs, isWsChar, parseElems_cons_ws]

theorem parse_print_pairs (kvs : PyDict) :
    kvs ≠ .nil → ∀ (f : Nat) (rest : List Char),
      (dumpsPairs kvs).data.length + 2 ≤ f →
      parsePairs f ((dumpsPairs kvs).data ++ rbraceChar :: rest) = some (kvs, rest) := by
  intro hne f rest hf
  obtain ⟨f', rfl⟩ : ∃ g, f = g + 1 := ⟨f - 1, by omega⟩
  cases kvs with
  | nil => exact absurd rfl hne
  | cons k v tl =>
    cases tl with
    | nil =>
      have hpd : (dumpsPairs (PyDict.cons k v .nil)).data =
          '"' :: (escapeChars k.data ++
            ('"' :: ':' :: ' ' :: (jsonDumps v).data)) := by
        rw [show dumpsPairs (.cons k v .nil) =
          quoteString k ++ (": " ++ jsonDumps v) from by
            rw [show dumpsPairs (.cons k v .nil) =
              quoteString k ++ ": " ++ jsonDumps v from rfl, String.append_assoc]]
        rw [String.data_append]
        rw [show (quoteString k).data = '"' :: (escapeChars k.data ++ ['"']) from rfl]
        rw [show (": " ++ jsonDumps v).data = ':' :: ' ' :: (jsonDumps v).data from by
          rw [String.data_append]; rfl]
        rw [List.cons_append, List.append_assoc, List.singleton_append]
      have hlen : (dumpsPairs (PyDict.cons k v PyDict.nil)).data.length =
          (escapeChars k.data).length + (jsonDumps v).data.length + 4 := by
        rw [hpd]
        simp only [List.length_cons, List.length_append]
        omega
      rw [hpd, List.cons_append, List.append_assoc]
      rw [show ('"' :: ':' :: ' ' :: (jsonDumps v).data) ++ rbraceChar :: rest =
        '"' :: (':' :: (' ' :: ((jsonDumps v).data ++ rbraceChar :: rest))) from rfl]
      have hsb := parseStringBody_escape k.data
        (':' :: ' ' :: ((jsonDumps v).data ++ rbraceChar :: rest))
      have hv := parse_print_val v f' (rbraceChar :: rest) (by omega)
        (Or.inr (Or.inr rfl))
      simp [parsePairs, skipWs, hsb, parseValue_cons_ws, hv,
        show isWsChar '"' = false from by decide,
        show isWsChar ':' = false from by decide,
        show isWsChar ' ' = true from by decide,
        show isWsChar rbraceChar = false from by decide,
        show ¬(rbraceChar = ',') from by decide,
        show String.mk k.data = k from rfl]
    | cons k2 v2 t2 =>
      have hpd : (dumpsPairs (PyDict.cons k v (PyDict.cons k2 v2 t2))).data =
          '"' :: (escapeChars k.data ++
            ('"' :: ':' :: ' ' :: ((jsonDumps v).data ++
              (',' :: ' ' :: (dumpsPairs (PyDict.cons k2 v2 t2)).data)))) := by
        rw [show dumpsPairs (.cons k v (.cons k2 v2 t2)) =
          quoteString k ++ (": " ++ (jsonDumps v ++
            (", " ++ dumpsPairs (.cons k2 v2 t2)))) from by
            rw [show dumpsPairs (.cons k v (.cons k2 v2 t2)) =
              quoteString k ++ ": " ++ jsonDumps v ++ ", " ++
                dumpsPairs (.cons k2 v2 t2) from rfl,
              String.append_assoc, String.append_assoc, String.append_assoc]]
        rw [String.data_append]
        rw [show (quoteString k).data = '"' :: (escapeChars k.data ++ ['"']) from rfl]
        rw [show (": " ++ (jsonDumps v ++ (", " ++ dumpsPairs (.cons k2 v2 t2)))).data =
          ':' :: ' ' :: ((jsonDumps v).data ++
            (',' :: ' ' :: (dumpsPairs (.cons k2 v2 t2)).data)) from by
          rw [String.data_append, String.data_append, String.data_append]; rfl]
        rw [List.cons_append, List.append_assoc, List.singleton_append]
      have hlen : (dumpsPairs (PyDict.cons k v (PyDict.cons k2 v2 t2))).data.length =
          (escapeChars k.data).length + (jsonDumps v).data.length +
            (dumpsPairs (PyDict.cons k2 v2 t2)).data.length + 6 := by
        rw [hpd]
        simp only [List.length_cons, List.length_append]
        omega
      rw [hpd, List.cons_append, List.append_assoc]
      rw [show ('"' :: ':' :: ' ' :: ((jsonDumps v).data ++
          (',' :: ' ' :: (dumpsPairs (PyDict.cons k2 v2 t2)).data))) ++
          rbraceChar :: rest =
        '"' :: (':' :: (' ' :: ((jsonDumps v).data ++
          (',' :: (' ' :: ((dumpsPairs (PyDict.cons k2 v2 t2)).data ++
            rbraceChar :: rest)))))) from by simp]
      have hsb := parseStringBody_escape k.data
        (':' :: ' ' :: ((jsonDumps v).data ++
          (',' :: (' ' :: ((dumpsPairs (PyDict.cons k2 v2 t2)).data ++
            rbraceChar :: rest)))))
      have hv := parse_print_val v f'
        (',' :: (' ' :: ((dumpsPairs (PyDict.cons k2 v2 t2)).data ++
          rbraceChar :: rest))) (by omega) (Or.inl rfl)
      have hrec := parse_print_pairs (PyDict.cons k2 v2 t2)
        (fun h => PyDict.noConfusion h) f' rest (by omega)
      simp [parsePairs, skipWs, hsb, parseValue_cons_ws, hv,
        parsePairs_cons_ws, hrec,
        show isWsChar '"' = false from by decide,
        show isWsChar ':' = false from by decide,
        show isWsChar ',' = false from by decide,
        show isWsChar ' ' = true from by decide,
        show isWsChar rbraceChar = false from by decide,
        show ¬(rbraceChar = ',') from by decide,
        show String.mk k.data = k from rfl]

end

theorem jsonDumps_ne_empty (v : PyVal) : jsonDumps v ≠ "" := by
  obtain ⟨c, cs, hd, _, _⟩ := jsonDumps_head v
  intro he
  rw [he] at hd
  exact absurd (show ([] : List Char) = c :: cs from hd) (by simp)

/-- `json.loads` inverts `json.dumps` on the modelled JSON fragment. -/
theorem jsonLoads_jsonDumps (v : PyVal) : jsonLoads (jsonDumps v) = some v := by
  have h := parse_print_val v ((jsonDumps v).length + 1) [] (le_of_eq rfl)
    (by trivial)
  rw [List.append_nil] at h
  unfold jsonLoads
  rw [h]
  rfl

/-- A dict or list value written through `_encode_meta` is recovered
structurally equal by `_decode_meta_value`. -/
theorem decodeMetaValue_container (v : PyVal) (hc : v.isContainer = true) :
    decodeMetaValue (jsonDumps v) = v := by
  unfold decodeMetaValue
  rw [if_neg (jsonDumps_ne_empty v), jsonLoads_jsonDumps v]
  simp [hc]

/-- An integer `match_count` handed to `bootstrap` comes back from
`get_meta` as its decimal string rendering. -/
theorem bootstrap_matchCount (limit : Nat) (st : JobState) (jobId teamTag : String)
    (n : Int) (shareEmail createdBy : Option String) (ts : Nat) :
    metaLookup (bootstrap limit st jobId teamTag (some n) shareEmail createdBy ts)
      "match_count" = some (.str (pyIntStr n)) := by
  unfold metaLookup
  rw [getMeta_lookup]
  rw [show (bootstrap limit st jobId teamTag (some n) shareEmail createdBy ts).meta =
    hsetMany [] (encodeMeta (bootstrapMeta jobId teamTag (some n) shareEmail
      createdBy ts)) from rfl]
  rw [show encodeMeta (bootstrapMeta jobId teamTag (some n) shareEmail createdBy ts) =
    ("job_id", jobId) :: ("status", "queued") :: ("team_tag", teamTag) ::
    ("match_count", pyIntStr n) ::
    (("share_email", encodeMetaValue (optStr shareEmail)) ::
     ("created_at", pyNatStr ts) :: ("updated_at", pyNatStr ts) ::
     encodeMeta (match createdBy with
       | some u => if u = "" then [] else [("created_by", PyVal.str u)]
       | Option.none => [])) from by
    simp [bootstrapMeta, encodeMeta, encodeMetaValue, optInt]]
  have hkeys : ∀ p ∈ ("share_email", encodeMetaValue (optStr shareEmail)) ::
      ("created_at", pyNatStr ts) :: ("updated_at", pyNatStr ts) ::
      encodeMeta (match createdBy with
        | some u => if u = "" then [] else [("created_by", PyVal.str u)]
        | Option.none => []), p.1 ≠ "match_count" := by
    intro p hp
    simp only [List.mem_cons] at hp
    rcases hp with rfl | rfl | rfl | hp
    · exact (by decide : ("share_email" : String) ≠ "match_count")
    · exact (by decide : ("created_at" : String) ≠ "match_count")
    · exact (by decide : ("updated_at" : String) ≠ "match_count")
    · cases createdBy with
      | none => simp [encodeMeta] at hp
      | some u =>
        by_cases hu : u = ""
        · simp [hu, encodeMeta] at hp
        · simp [hu, encodeMeta, encodeMetaValue] at hp
          rw [hp]
          exact (by decide : ("created_by" : String) ≠ "match_count")
  rw [hsetMany_cons, hsetMany_cons, hsetMany_cons, hsetMany_cons]
  rw [hsetMany_lookup_notin _ _ _ hkeys]
  rw [hsetField_lookup_self]
  simp [decodeMetaValue_int]

/-- C10 counterexample: `_encode_meta` sends the *string* value `"[1]"`
through `str()` unchanged, but `_decode_meta_value` probes it with
`json.loads` and, because it parses as a JSON list, returns the list
`[1]` instead of the string representation; likewise the empty string
decodes to `None`, not to a string. -/
theorem meta_roundtrip_counterexample :
    encodeMetaValue (.str "[1]") = "[1]"
    ∧ decodeMetaValue (encodeMetaValue (.str "[1]")) =
        .list (.cons (.int 1) .nil)
    ∧ decodeMetaValue (encodeMetaValue (.str "[1]")) ≠ .str "[1]"
    ∧ decodeMetaValue (encodeMetaValue (.str "")) = .none := by
  decide

/-- C10 (amended): the meta encode/decode round trip through
`_encode_meta` / `_decode_meta_value` is lossy for scalars: `None` comes
back as `None`, a dict or list comes back structurally equal, an integer
comes back as its decimal string, a bool as `"True"`/`"False"`, and a
nonempty string that does not itself parse as a JSON dict or list comes
back unchanged (strings that do parse as containers are returned as the
parsed structure, and the empty string as `None` — the exceptions to the
claim's "every other value as its string representation").  In
particular an integer `match_count` passed to `bootstrap` is returned by
`get_meta` as a decimal string, not an integer. -/
theorem meta_roundtrip_lossy_scalars (v : PyVal) (s : String) (m : Int) (b : Bool)
    (hs : s ≠ "") (hsp : ∀ p, jsonLoads s = some p → p.isContainer = false)
    (hv : v.isContainer = true) (st : JobState) (limit : Nat)
    (jobId teamTag : String) (n : Int) (shareEmail createdBy : Option String)
    (ts : Nat) :
    decodeMetaValue (encodeMetaValue .none) = .none
    ∧ decodeMetaValue (encodeMetaValue v) = v
    ∧ decodeMetaValue (encodeMetaValue (.int m)) = .str (pyIntStr m)
    ∧ decodeMetaValue (encodeMetaValue (.bool b)) =
        .str (if b then "True" else "False")
    ∧ decodeMetaValue (encodeMetaValue (.str s)) = .str s
    ∧ metaLookup (bootstrap limit st jobId teamTag (some n) shareEmail createdBy ts)
        "match_count" = some (.str (pyIntStr n)) := by
  refine ⟨by decide, ?_, ?_, ?_, ?_, ?_⟩
  · have he : encodeMetaValue v = jsonDumps v := by
      cases v <;> simp_all [encodeMetaValue, PyVal.isContainer, jsonDumps]
    rw [he]
    exact decodeMetaValue_container v hv
  · exact decodeMetaValue_int m
  · cases b <;> decide
  · exact decode_of_not_container s hs hsp
  · exact bootstrap_matchCount limit st jobId teamTag n shareEmail createdBy ts

/-- Closed instance of the C10 amended theorem at concrete values. -/
theorem meta_roundtrip_lossy_scalars_witness :
    (("abc" : String) ≠ ""
     ∧ PyVal.isContainer (.list (.cons (.int 2) .nil)) = true)
    ∧ (decodeMetaValue (encodeMetaValue .none) = .none
       ∧ decodeMetaValue (encodeMetaValue (.list (.cons (.int 2) .nil))) =
           .list (.cons (.int 2) .nil)
       ∧ decodeMetaValue (encodeMetaValue (.int (-3))) = .str (pyIntStr (-3))
       ∧ decodeMetaValue (encodeMetaValue (.bool true)) =
           .str (if true then "True" else "False")
       ∧ decodeMetaValue (encodeMetaValue (.str "abc")) = .str "abc"
       ∧ metaLookup (bootstrap 500 emptyJobState "job-1" "team" (some 12)
           Option.none Option.none 0) "match_count" = some (.str (pyIntStr 12))) := by
  refine ⟨⟨by decide, by decide⟩, ?_⟩
  exact meta_roundtrip_lossy_scalars (.list (.cons (.int 2) .nil)) "abc" (-3) true
    (by decide)
    (fun p hp => by
      rw [show jsonLoads "abc" = Option.none from by decide] at hp
      exact Option.noConfusion hp)
    (by decide) emptyJobState 500 "job-1" "team" 12 Option.none Option.none 0

end ValoHub
